import Mathlib

/-!
Verification of the AI-Data-Agent backend data pipeline.

This file gives a shallow embedding, in Lean 4, of the parts of the
backend that the specification talks about:

* `app/utils/database.py` — the SQL safety gate (`_sanitize_sql`), the
  identifier sanitizers (`sanitize_table_name`, `sanitize_column_name`),
  dynamic table creation (`create_dynamic_table_from_schema`,
  `insert_dataframe_to_table`) and their retry-on-lock loops;
* `app/services/excel_processor.py` — sanitized column-name mappings
  (`_build_column_mappings`) and SQL schema inference (`_infer_schema`,
  `_map_series_to_sql_type`);
* `app/services/data_cleaner.py` — the cleaning pipeline (`DataCleaner.clean`
  and its six stages).

Python strings are modelled as `List Char` (`PyStr`), pandas DataFrames as
lists of typed columns, numeric cells as `Int`/`ℚ`, and the sqlite side
effects of the retry loops as an oracle `Nat → Except PyStr α` giving the
outcome of each attempt.  Library behaviour (pandas parsing, medians,
modes) is embedded for the value forms the pipeline actually handles and
each such model is documented at its definition.
-/

/-- Python strings are modelled as lists of characters. -/
abbrev PyStr := List Char

/-- Coerce a Lean string literal into the `PyStr` model. -/
def S (s : String) : PyStr := s.toList

/-- Characters treated as whitespace by Python `str.strip` (ASCII range). -/
def isPyWs (c : Char) : Bool :=
  c = ' ' || c = '\t' || c = '\n' || c = '\r' || c = '\x0b' || c = '\x0c'

/-- Python `str.strip()`: drop leading and trailing whitespace. -/
def pyStrip (s : PyStr) : PyStr :=
  ((s.dropWhile isPyWs).reverse.dropWhile isPyWs).reverse

/-- Python `str.upper` on one ASCII character. -/
def pyUpperChar (c : Char) : Char :=
  if 'a' ≤ c ∧ c ≤ 'z' then Char.ofNat (c.toNat - 32) else c

/-- Python `str.upper` (ASCII model). -/
def pyUpper (s : PyStr) : PyStr := s.map pyUpperChar

/-- Python `str.lower` on one ASCII character. -/
def pyLowerChar (c : Char) : Char :=
  if 'A' ≤ c ∧ c ≤ 'Z' then Char.ofNat (c.toNat + 32) else c

/-- Python `str.lower` (ASCII model). -/
def pyLower (s : PyStr) : PyStr := s.map pyLowerChar

/-- Python `tok in s`: substring containment. -/
def isSubstrOf (tok : PyStr) : PyStr → Bool
  | [] => tok.isEmpty
  | c :: rest => tok.isPrefixOf (c :: rest) || isSubstrOf tok rest

/-- The text strictly before the first occurrence of `tok`
(`s.split(tok)[0]` when `tok` occurs in `s`; all of `s` otherwise). -/
def takeUntilTok (tok : PyStr) : PyStr → PyStr
  | [] => []
  | c :: rest =>
    if tok.isPrefixOf (c :: rest) then [] else c :: takeUntilTok tok rest

/-- Python `s.rstrip(';')`. -/
def rstripSemi (s : PyStr) : PyStr :=
  (s.reverse.dropWhile (· = ';')).reverse

/-- Decimal digit character (Python `str(int)` building block). -/
def digitChar10 (d : Nat) : Char := Char.ofNat (48 + d)

/-- Fuel-driven core of the decimal rendering of a natural number. -/
def natStrCore : Nat → Nat → PyStr
  | 0, _ => []
  | fuel + 1, n =>
    if n < 10 then [digitChar10 n]
    else natStrCore fuel (n / 10) ++ [digitChar10 (n % 10)]

/-- Python `str(n)` for a non-negative integer: decimal digits. -/
def natStr (n : Nat) : PyStr := natStrCore (n + 1) n

/-- Python `str.isalpha` restricted to ASCII letters (the only characters
that can reach the check, since it is applied after the `[^a-zA-Z0-9_]`
substitution). -/
def pyIsAlpha (c : Char) : Bool :=
  (decide ('A' ≤ c) && decide (c ≤ 'Z')) ||
  (decide ('a' ≤ c) && decide (c ≤ 'z'))

/-- A regex word character, `[A-Za-z0-9_]`. -/
def isWordChar (c : Char) : Bool :=
  (decide ('A' ≤ c) && decide (c ≤ 'Z')) ||
  (decide ('a' ≤ c) && decide (c ≤ 'z')) ||
  (decide ('0' ≤ c) && decide (c ≤ '9')) ||
  c = '_'

/-! ### The SQL safety gate (`database.py` lines 14-28 and 311-329) -/

/-- `DEFAULT_SQL_LIMIT = 200`. -/
def DEFAULT_SQL_LIMIT : Nat := 200

/-- `FORBIDDEN_SQL_TOKENS` (a Python set; modelled in the written order —
only membership is ever observed). -/
def FORBIDDEN_SQL_TOKENS : List PyStr :=
  [S "INSERT", S "UPDATE", S "DELETE", S "DROP", S "ALTER",
   S "TRUNCATE", S "MERGE", S "CALL", S "EXEC", S "PRAGMA"]

/-- `COMMENT_TOKENS = ("--", "/*", "//")`. -/
def COMMENT_TOKENS : List PyStr := [S "--", S "/*", S "//"]

/-- `SAFE_SQL_PATTERN.match`: the regex is
an optional run of whitespace, then `SELECT` case-insensitively, then a
word boundary (end of text or a non-word character). -/
def matchesSafeSqlPattern (s : PyStr) : Bool :=
  let t := s.dropWhile isPyWs
  pyUpper (t.take 6) = S "SELECT" &&
    (match t.drop 6 with
     | [] => true
     | c :: _ => !isWordChar c)

/-- Some forbidden keyword occurs as a substring of `s`. -/
def containsForbiddenToken (s : PyStr) : Bool :=
  FORBIDDEN_SQL_TOKENS.any (fun tok => isSubstrOf tok s)

/-- The comment-truncation loop of `_sanitize_sql`: for each comment token
in order, if it occurs, keep the text before its first occurrence and
strip whitespace. -/
def truncateComments (s : PyStr) : PyStr :=
  COMMENT_TOKENS.foldl
    (fun acc tok => if isSubstrOf tok acc then pyStrip (takeUntilTok tok acc) else acc)
    s

/-- `_sanitize_sql` (`database.py` lines 311-329).  Raising `ValueError` is
modelled as `Except.error` carrying the message. -/
def sanitizeSql (sql : PyStr) : Except PyStr PyStr :=
  let stripped := pyStrip sql
  if !matchesSafeSqlPattern stripped then
    .error (S "Only SELECT statements are allowed")
  else
    let upperSql := pyUpper stripped
    match FORBIDDEN_SQL_TOKENS.find? (fun tok => isSubstrOf tok upperSql) with
    | some tok => .error (S "Forbidden SQL operation detected: " ++ tok)
    | none =>
      let truncated := truncateComments stripped
      if !isSubstrOf (S "LIMIT") upperSql then
        .ok (rstripSemi truncated ++ S " LIMIT " ++ natStr DEFAULT_SQL_LIMIT)
      else
        .ok truncated

deriving instance DecidableEq for Except

/-- Whether an `Except` result is an error (a raised exception). -/
def exceptIsError {ε α : Type} : Except ε α → Bool
  | .error _ => true
  | .ok _ => false

/-! ### Basic lemmas -/

lemma find?_isSome_eq_any {α : Type} (p : α → Bool) (l : List α) :
    (l.find? p).isSome = l.any p := by
  induction l with
  | nil => rfl
  | cons a t ih => by_cases h : p a <;> simp [List.find?_cons, h, ih]

/-! ### Claim C1: when the safety gate raises -/

lemma sanitize_sql_isError_eq (s : PyStr) :
    exceptIsError (sanitizeSql s)
      = (!matchesSafeSqlPattern (pyStrip s) ||
         containsForbiddenToken (pyUpper (pyStrip s))) := by
  by_cases h1 : matchesSafeSqlPattern (pyStrip s)
  · by_cases hc : containsForbiddenToken (pyUpper (pyStrip s))
    · obtain ⟨tok, htok⟩ := Option.isSome_iff_exists.mp
        (by rw [find?_isSome_eq_any]; exact hc)
      simp [sanitizeSql, h1, htok, hc, exceptIsError]
    · have hcf : containsForbiddenToken (pyUpper (pyStrip s)) = false := by
        simpa using hc
      have hnone : FORBIDDEN_SQL_TOKENS.find?
          (fun tok => isSubstrOf tok (pyUpper (pyStrip s))) = none := by
        cases hx : FORBIDDEN_SQL_TOKENS.find?
            (fun tok => isSubstrOf tok (pyUpper (pyStrip s))) with
        | none => rfl
        | some tok =>
          have h2 := find?_isSome_eq_any
            (fun tok => isSubstrOf tok (pyUpper (pyStrip s))) FORBIDDEN_SQL_TOKENS
          rw [hx] at h2
          rw [containsForbiddenToken] at hcf
          rw [hcf] at h2
          simp at h2
      by_cases hl : isSubstrOf (S "LIMIT") (pyUpper (pyStrip s))
      · simp [sanitizeSql, h1, hnone, hcf, hl, exceptIsError]
      · simp [sanitizeSql, h1, hnone, hcf, hl, exceptIsError]
  · have h1f : matchesSafeSqlPattern (pyStrip s) = false := by
      simpa using h1
    simp [sanitizeSql, h1f, exceptIsError]

/-- C1: for every input SQL string, `_sanitize_sql` raises `ValueError`
if and only if the text, after surrounding whitespace is stripped, does
not begin with the keyword `SELECT` case-insensitively (with a word
boundary after it, as in the regex), or the upper-cased text contains one
of the fixed forbidden keywords; in particular it rejects
`DROP TABLE users` and `SELECT * FROM t; DELETE FROM t` and accepts
`select id from t`. -/
theorem sanitize_sql_error_iff :
    (∀ s : PyStr, exceptIsError (sanitizeSql s) = true ↔
        (matchesSafeSqlPattern (pyStrip s) = false ∨
         containsForbiddenToken (pyUpper (pyStrip s)) = true))
    ∧ exceptIsError (sanitizeSql (S "DROP TABLE users")) = true
    ∧ exceptIsError (sanitizeSql (S "SELECT * FROM t; DELETE FROM t")) = true
    ∧ exceptIsError (sanitizeSql (S "select id from t")) = false := by
  refine ⟨fun s => ?_, by decide, by decide, by decide⟩
  rw [sanitize_sql_isError_eq]
  cases hA : matchesSafeSqlPattern (pyStrip s) <;>
    cases hB : containsForbiddenToken (pyUpper (pyStrip s)) <;> simp

/-! ### Claim C2 (amended): the shape of accepted queries -/

/-- C2 (amended): every accepted query is returned as the stripped input
truncated by the comment loop (splitting at `--`, then `/*`, then `//`,
stripping whitespace after each cut), and the fixed 200-row limit is
appended exactly when the upper-cased PRE-truncation text does not
contain `LIMIT` as a substring (trailing semicolons are removed before
appending).  The example `SELECT * -- ignore\n FROM t` is truncated at the
comment and, because its pre-truncation text has no `LIMIT`, the limit is
appended. -/
theorem sanitize_sql_success_shape :
    (∀ (s r : PyStr), sanitizeSql s = .ok r →
        r = (if isSubstrOf (S "LIMIT") (pyUpper (pyStrip s))
             then truncateComments (pyStrip s)
             else rstripSemi (truncateComments (pyStrip s)) ++ S " LIMIT " ++
                  natStr DEFAULT_SQL_LIMIT))
    ∧ sanitizeSql (S "SELECT * -- ignore\n FROM t") = .ok (S "SELECT * LIMIT 200") := by
  refine ⟨fun s r h => ?_, by decide⟩
  by_cases h1 : matchesSafeSqlPattern (pyStrip s)
  · cases hf : (FORBIDDEN_SQL_TOKENS.find?
        (fun tok => isSubstrOf tok (pyUpper (pyStrip s)))) with
    | some tok =>
      simp [sanitizeSql, h1, hf] at h
    | none =>
      by_cases hl : isSubstrOf (S "LIMIT") (pyUpper (pyStrip s))
      · simp [sanitizeSql, h1, hf, hl] at h
        simp [hl, h]
      · simp [sanitizeSql, h1, hf, hl] at h
        simp [hl, h]
  · simp [sanitizeSql, h1] at h

/-- C2 witness: the general success-shape theorem applied at the concrete
accepted query `select id from t`. -/
theorem sanitize_sql_success_shape_witness :
    S "select id from t LIMIT 200" =
      (if isSubstrOf (S "LIMIT") (pyUpper (pyStrip (S "select id from t")))
       then truncateComments (pyStrip (S "select id from t"))
       else rstripSemi (truncateComments (pyStrip (S "select id from t"))) ++
            S " LIMIT " ++ natStr DEFAULT_SQL_LIMIT) :=
  sanitize_sql_success_shape.1 (S "select id from t")
    (S "select id from t LIMIT 200") (by decide)

/-- C2 counterexample: for `SELECT a FROM t -- LIMIT 5` no row limit
survives the comment truncation, yet the gate returns the query without
appending one, because the limit decision looks at the pre-truncation
text (where `LIMIT` occurs inside the comment). -/
theorem sanitize_sql_limit_decision_cex :
    sanitizeSql (S "SELECT a FROM t -- LIMIT 5") = .ok (S "SELECT a FROM t")
    ∧ isSubstrOf (S "LIMIT") (pyUpper (S "SELECT a FROM t")) = false := by
  constructor
  · decide
  · decide

/-! ### Substring helper lemmas -/

lemma isPrefixOf_append_self (l v : PyStr) : l.isPrefixOf (l ++ v) = true := by
  induction l with
  | nil => cases v <;> rfl
  | cons c t ih => simp [List.isPrefixOf, ih]

lemma isSubstrOf_nil_left (s : PyStr) : isSubstrOf [] s = true := by
  cases s <;> simp [isSubstrOf, List.isPrefixOf]

lemma isSubstrOf_of_eq_append (tok u v s : PyStr) (h : s = u ++ tok ++ v) :
    isSubstrOf tok s = true := by
  subst h
  induction u with
  | nil =>
    cases htok : tok with
    | nil => simpa [htok] using isSubstrOf_nil_left v
    | cons c t =>
      simp only [List.nil_append]
      have : (c :: t) ++ v = c :: (t ++ v) := rfl
      rw [htok] at *
      simp [isSubstrOf, isPrefixOf_append_self]
  | cons c u ih =>
    simp only [isSubstrOf, List.cons_append, Bool.or_eq_true]
    right
    simpa [List.append_assoc] using ih

/-! ### Retry-on-lock loops (`database.py` lines 247-264 and 267-290) -/

/-- The substring the retry loops look for in a failure message. -/
def lockedErrorMsg : PyStr := S "database is locked"

/-- Python `"database is locked" in str(e)`. -/
def isLockedError (e : PyStr) : Bool := isSubstrOf lockedErrorMsg e

/-- Outcome of running a retry loop: the final result (a return value or
the re-raised exception) and the list of backoff sleeps performed, in
order. -/
structure RetryOutcome (α : Type) where
  result : Except PyStr α
  sleeps : List ℚ

deriving instance DecidableEq for RetryOutcome

/-- The body of `for attempt in range(max_retries)` with the
`except` clause `if "database is locked" in str(e) and attempt < max_retries - 1:
time.sleep(retry_delay * (2 ** attempt)); continue` and `raise` otherwise.
The database side effect of each attempt is abstracted as an oracle
`attempts : Nat → Except PyStr α`. -/
def retryGo {α : Type} (attempts : Nat → Except PyStr α)
    (maxRetries : Nat) (retryDelay : ℚ) :
    Nat → Nat → List ℚ → RetryOutcome α
  | 0, _, sleeps => ⟨.error [], sleeps.reverse⟩
  | fuel + 1, attempt, sleeps =>
    match attempts attempt with
    | .ok a => ⟨.ok a, sleeps.reverse⟩
    | .error e =>
      if isLockedError e && decide (attempt < maxRetries - 1) then
        retryGo attempts maxRetries retryDelay fuel (attempt + 1)
          (retryDelay * 2 ^ attempt :: sleeps)
      else ⟨.error e, sleeps.reverse⟩

/-- Run a retry loop from attempt 0 (the fuel equals the attempt budget,
so the `0` fuel case is unreachable for a positive budget). -/
def runWithRetry {α : Type} (maxRetries : Nat) (retryDelay : ℚ)
    (attempts : Nat → Except PyStr α) : RetryOutcome α :=
  retryGo attempts maxRetries retryDelay maxRetries 0 []

/-- One column entry of the schema dict consumed by
`create_dynamic_table_from_schema`. -/
structure SchemaColumn where
  name : PyStr
  type : PyStr
  nullable : Bool
  primaryKey : Bool

deriving instance DecidableEq for SchemaColumn

/-- The schema dict consumed by `create_dynamic_table_from_schema`. -/
structure TableSchemaDict where
  tableName : PyStr
  columns : List SchemaColumn

deriving instance DecidableEq for TableSchemaDict

/-- Python `sep.join(xs)`. -/
def joinSep (sep : PyStr) : List PyStr → PyStr
  | [] => []
  | [x] => x
  | x :: y :: rest => x ++ sep ++ joinSep sep (y :: rest)

/-- One data-column definition string built by
`create_dynamic_table_from_schema`. -/
def columnDefSql (col : SchemaColumn) : PyStr :=
  S "\"" ++ col.name ++ S "\" " ++ col.type ++
  (if !col.nullable then S " NOT NULL" else []) ++
  (if col.primaryKey then S " PRIMARY KEY" else [])

/-- The `CREATE TABLE` statement assembled by
`create_dynamic_table_from_schema` (`database.py` lines 222-245), with the
four bookkeeping columns always present. -/
def createTableSql (schema : TableSchemaDict) : PyStr :=
  let columnDefs :=
    [S "file_id INTEGER NOT NULL",
     S "created_at DATETIME DEFAULT CURRENT_TIMESTAMP",
     S "updated_at DATETIME DEFAULT CURRENT_TIMESTAMP",
     S "row_index INTEGER NOT NULL"] ++ schema.columns.map columnDefSql
  S "CREATE TABLE IF NOT EXISTS \"" ++ schema.tableName ++
  S "\" (id INTEGER PRIMARY KEY AUTOINCREMENT, " ++
  joinSep (S ", ") columnDefs ++ S ")"

/-- `create_dynamic_table_from_schema`: builds the SQL, then runs the DDL
under the 3-attempt retry-on-lock loop with base delay `0.1`; on success
it returns the table name. -/
def createDynamicTableFromSchema (schema : TableSchemaDict)
    (attempts : Nat → Except PyStr Unit) : RetryOutcome PyStr :=
  let r := runWithRetry 3 (1/10) attempts
  ⟨r.result.map (fun _ => schema.tableName), r.sleeps⟩

/-- `insert_dataframe_to_table`: runs the bulk insert under the same
3-attempt retry-on-lock loop with base delay `0.1`; on success it returns
the number of inserted rows (the oracle's value). -/
def insertDataframeToTable (attempts : Nat → Except PyStr Nat) :
    RetryOutcome Nat :=
  runWithRetry 3 (1/10) attempts

/-! ### Claim C9: retry policy of the materializer -/

/-- C9: for both table creation and bulk insert, a first failure whose
message does not indicate a locked database is raised immediately with no
sleep; failures indicating a locked database are retried up to exactly 3
total attempts with exponentially increasing backoff (`0.1 * 2 ^ attempt`
between attempts), after which the last error is raised; a first success
returns immediately. -/
theorem retry_on_locked_policy :
    (∀ (schema : TableSchemaDict) (att : Nat → Except PyStr Unit),
      (∀ e, att 0 = .error e → isLockedError e = false →
        createDynamicTableFromSchema schema att = ⟨.error e, []⟩)
      ∧ (∀ e0 e1 e2, att 0 = .error e0 → att 1 = .error e1 → att 2 = .error e2 →
          isLockedError e0 = true → isLockedError e1 = true → isLockedError e2 = true →
          createDynamicTableFromSchema schema att =
            ⟨.error e2, [1/10 * 2 ^ 0, 1/10 * 2 ^ 1]⟩)
      ∧ (∀ a, att 0 = .ok a →
          createDynamicTableFromSchema schema att = ⟨.ok schema.tableName, []⟩))
    ∧ (∀ att : Nat → Except PyStr Nat,
      (∀ e, att 0 = .error e → isLockedError e = false →
        insertDataframeToTable att = ⟨.error e, []⟩)
      ∧ (∀ e0 e1 e2, att 0 = .error e0 → att 1 = .error e1 → att 2 = .error e2 →
          isLockedError e0 = true → isLockedError e1 = true → isLockedError e2 = true →
          insertDataframeToTable att = ⟨.error e2, [1/10 * 2 ^ 0, 1/10 * 2 ^ 1]⟩)
      ∧ (∀ n, att 0 = .ok n → insertDataframeToTable att = ⟨.ok n, []⟩))
    ∧ ((1/10 * 2 ^ 0 : ℚ) < 1/10 * 2 ^ 1) := by
  refine ⟨fun schema att => ⟨?_, ?_, ?_⟩, fun att => ⟨?_, ?_, ?_⟩, by norm_num⟩
  · intro e h0 hl
    simp [createDynamicTableFromSchema, runWithRetry, retryGo, h0, hl, Except.map]
  · intro e0 e1 e2 h0 h1 h2 hl0 hl1 hl2
    simp [createDynamicTableFromSchema, runWithRetry, retryGo, h0, h1, h2, hl0, hl1, hl2, Except.map]
  · intro a h0
    simp [createDynamicTableFromSchema, runWithRetry, retryGo, h0, Except.map]
  · intro e h0 hl
    simp [insertDataframeToTable, runWithRetry, retryGo, h0, hl]
  · intro e0 e1 e2 h0 h1 h2 hl0 hl1 hl2
    simp [insertDataframeToTable, runWithRetry, retryGo, h0, h1, h2, hl0, hl1, hl2]
  · intro n h0
    simp [insertDataframeToTable, runWithRetry, retryGo, h0]

/-- C9 witness: the policy applied to a concrete always-locked oracle for
table creation and a first-try success for insertion. -/
theorem retry_on_locked_policy_witness :
    createDynamicTableFromSchema ⟨S "t", []⟩ (fun _ => .error (S "database is locked"))
      = ⟨.error (S "database is locked"), [1/10 * 2 ^ 0, 1/10 * 2 ^ 1]⟩
    ∧ insertDataframeToTable (fun _ => .ok 5) = ⟨.ok 5, []⟩ :=
  ⟨(retry_on_locked_policy.1 ⟨S "t", []⟩ _).2.1 _ _ _ rfl rfl rfl
      (by decide) (by decide) (by decide),
   (retry_on_locked_policy.2.1 _).2.2 5 rfl⟩

/-! ### Claim C10: substring keyword test rejects bookkeeping columns -/

/-- C10: the forbidden-keyword check is a plain substring test over the
upper-cased query text, so any query containing a forbidden keyword
inside an identifier is rejected; in particular `SELECT updated_at FROM t`
is rejected (its upper-cased text contains `UPDATE`), although
`updated_at` is a bookkeeping column `create_dynamic_table_from_schema`
itself adds to every table it creates. -/
theorem substring_check_rejects_updated_at :
    (∀ s : PyStr, containsForbiddenToken (pyUpper (pyStrip s)) = true →
        exceptIsError (sanitizeSql s) = true)
    ∧ exceptIsError (sanitizeSql (S "SELECT updated_at FROM t")) = true
    ∧ (∀ schema : TableSchemaDict,
        isSubstrOf (S "updated_at") (createTableSql schema) = true) := by
  refine ⟨fun s h => ?_, by decide, fun schema => ?_⟩
  · rw [sanitize_sql_isError_eq, h]
    simp
  · apply isSubstrOf_of_eq_append (S "updated_at")
      (S "CREATE TABLE IF NOT EXISTS \"" ++ schema.tableName ++
       S "\" (id INTEGER PRIMARY KEY AUTOINCREMENT, " ++
       S "file_id INTEGER NOT NULL" ++ S ", " ++
       S "created_at DATETIME DEFAULT CURRENT_TIMESTAMP" ++ S ", ")
      (S " DATETIME DEFAULT CURRENT_TIMESTAMP" ++ S ", " ++
       joinSep (S ", ")
         (S "row_index INTEGER NOT NULL" :: schema.columns.map columnDefSql) ++
       S ")")
    have hsplit : S "updated_at DATETIME DEFAULT CURRENT_TIMESTAMP"
        = S "updated_at" ++ S " DATETIME DEFAULT CURRENT_TIMESTAMP" := by decide
    simp [createTableSql, joinSep, hsplit, List.append_assoc]

/-- C10 witness: the general substring-rejection fact applied to the
concrete query `SELECT updated_at FROM t`. -/
theorem substring_check_rejects_updated_at_witness :
    exceptIsError (sanitizeSql (S "SELECT updated_at FROM t")) = true :=
  substring_check_rejects_updated_at.1 (S "SELECT updated_at FROM t") (by decide)

/-! ### Identifier sanitization (`database.py` lines 37-45 and 191-199) -/

/-- `DynamicTableManager.sanitize_table_name`: replace every character
outside `[A-Za-z0-9_]` with an underscore, prefix `t_` when the first
character is neither a letter nor an underscore, truncate to 63
characters, lower-case. -/
def sanitizeTableName (name : PyStr) : PyStr :=
  let sanitized := name.map (fun c => if isWordChar c then c else '_')
  let sanitized :=
    match sanitized with
    | [] => []
    | c :: rest =>
      if pyIsAlpha c = false ∧ c ≠ '_' then S "t_" ++ (c :: rest) else c :: rest
  pyLower (sanitized.take 63)

/-- `DynamicTableManager.sanitize_column_name`: replace every character
outside `[A-Za-z0-9_]` with an underscore, prefix `col_` when the first
character is neither a letter nor an underscore, truncate to 63
characters, lower-case. -/
def sanitizeColumnName (name : PyStr) : PyStr :=
  let sanitized := name.map (fun c => if isWordChar c then c else '_')
  let sanitized :=
    match sanitized with
    | [] => []
    | c :: rest =>
      if pyIsAlpha c = false ∧ c ≠ '_' then S "col_" ++ (c :: rest) else c :: rest
  pyLower (sanitized.take 63)

/-! ### Column-name mappings (`excel_processor.py` lines 148-166) -/

/-- The base sanitized form assigned to the column at position `idx`:
the sanitized name, or the fallback `column_{idx}` when it is empty. -/
def baseNameOf (idx : Nat) (col : PyStr) : PyStr :=
  let s := sanitizeColumnName col
  if s = [] then S "column_" ++ natStr idx else s

/-- The `collision_counter` dict, modelled as an association list where
only lookups are observed (a new binding shadows an old one). -/
def CtrMap := List (PyStr × Nat)

/-- Dict lookup in the collision counter. -/
def lookupCtr (m : CtrMap) (key : PyStr) : Option Nat :=
  match m.find? (fun p => decide (p.1 = key)) with
  | some p => some p.2
  | none => none

/-- The loop body of `_build_column_mappings`: walk the column names with
their positions, assigning the bare base name on first occurrence and
`base_{n}` (with the incremented counter value `n`) on later occurrences.
The suffixed name is NOT entered into the counter, exactly as in the
source.  The Python dict of mappings is modelled as the association list
of `(original, sanitized)` pairs in iteration order, which matches the
dict provided the original column names are pairwise distinct. -/
def buildColumnMappingsGo : Nat → CtrMap → List PyStr → List (PyStr × PyStr)
  | _, _, [] => []
  | idx, ctr, col :: rest =>
    let base := baseNameOf idx col
    match lookupCtr ctr base with
    | some n =>
      (col, base ++ '_' :: natStr (n + 1)) ::
        buildColumnMappingsGo (idx + 1) ((base, n + 1) :: ctr) rest
    | none =>
      (col, base) :: buildColumnMappingsGo (idx + 1) ((base, 0) :: ctr) rest

/-- `_build_column_mappings` over the list of column names. -/
def buildColumnMappings (cols : List PyStr) : List (PyStr × PyStr) :=
  buildColumnMappingsGo 0 [] cols

/-- The base sanitized forms of all columns, in order. -/
def basesFrom : Nat → List PyStr → List PyStr
  | _, [] => []
  | idx, col :: rest => baseNameOf idx col :: basesFrom (idx + 1) rest

/-- The base sanitized forms of a column set (positions starting at 0). -/
def basesOf (cols : List PyStr) : List PyStr := basesFrom 0 cols

/-- The name given to the occurrence of base `b` that has `k` earlier
occurrences: bare for the first, `b_k` afterwards. -/
def encodeName (b : PyStr) (k : Nat) : PyStr :=
  if k = 0 then b else b ++ '_' :: natStr k

/-- Reference formulation of the collision policy: each base receives the
bare name on first occurrence and an incrementing numeric suffix, in
encounter order, afterwards. -/
def assignNames (seen : List PyStr) : List PyStr → List PyStr
  | [] => []
  | b :: rest => encodeName b (seen.count b) :: assignNames (seen ++ [b]) rest

/-! ### Lemmas about decimal renderings -/

lemma natStrCore_ne_nil (fuel n : Nat) (h : 0 < fuel) : natStrCore fuel n ≠ [] := by
  cases fuel with
  | zero => omega
  | succ f =>
    simp only [natStrCore]
    split <;> simp

lemma natStr_ne_nil (n : Nat) : natStr n ≠ [] :=
  natStrCore_ne_nil (n + 1) n (by omega)

lemma mem_natStrCore (fuel : Nat) :
    ∀ n c, c ∈ natStrCore fuel n → ∃ d, d < 10 ∧ c = digitChar10 d := by
  induction fuel with
  | zero => intro n c h; simp [natStrCore] at h
  | succ f ih =>
    intro n c h
    simp only [natStrCore] at h
    by_cases hn : n < 10
    · rw [if_pos hn] at h
      simp at h
      exact ⟨n, hn, h⟩
    · rw [if_neg hn] at h
      rcases List.mem_append.mp h with h2 | h2
      · exact ih _ _ h2
      · simp at h2
        exact ⟨n % 10, Nat.mod_lt n (by omega), h2⟩

lemma digitChar10_ne_underscore {d : Nat} (h : d < 10) : digitChar10 d ≠ '_' := by
  interval_cases d <;> decide

lemma underscore_not_mem_natStr (n : Nat) : '_' ∉ natStr n := by
  intro h
  obtain ⟨d, hd, he⟩ := mem_natStrCore (n + 1) n '_' h
  exact digitChar10_ne_underscore hd he.symm

lemma digitChar10_inj {d1 d2 : Nat} (h1 : d1 < 10) (h2 : d2 < 10)
    (h : digitChar10 d1 = digitChar10 d2) : d1 = d2 := by
  interval_cases d1 <;> interval_cases d2 <;> revert h <;> decide

lemma natStrCore_fuel_eq :
    ∀ n f1 f2, n < f1 → n < f2 → natStrCore f1 n = natStrCore f2 n := by
  intro n
  induction n using Nat.strong_induction_on with
  | _ n ih =>
    intro f1 f2 h1 h2
    cases f1 with
    | zero => omega
    | succ g1 =>
      cases f2 with
      | zero => omega
      | succ g2 =>
        simp only [natStrCore]
        by_cases hn : n < 10
        · rw [if_pos hn, if_pos hn]
        · rw [if_neg hn, if_neg hn]
          have hd : n / 10 < n := Nat.div_lt_self (by omega) (by omega)
          rw [ih (n / 10) hd g1 (n / 10 + 1) (by omega) (by omega),
              ih (n / 10) hd g2 (n / 10 + 1) (by omega) (by omega)]

lemma natStr_inj : ∀ n m, natStr n = natStr m → n = m := by
  intro n
  induction n using Nat.strong_induction_on with
  | _ n ih =>
    intro m h
    unfold natStr natStrCore at h
    by_cases hn : n < 10 <;> by_cases hm : m < 10
    · rw [if_pos hn, if_pos hm] at h
      simp at h
      exact digitChar10_inj hn hm h
    · rw [if_pos hn, if_neg hm] at h
      have hlen := congrArg List.length h
      have hne := natStrCore_ne_nil m (m / 10) (by omega)
      simp only [List.length_cons, List.length_nil, List.length_append] at hlen
      have hz : (natStrCore m (m / 10)).length = 0 := by omega
      exact absurd (List.length_eq_zero.mp hz) hne
    · rw [if_neg hn, if_pos hm] at h
      have hlen := congrArg List.length h
      have hne := natStrCore_ne_nil n (n / 10) (by omega)
      simp only [List.length_cons, List.length_nil, List.length_append] at hlen
      have hz : (natStrCore n (n / 10)).length = 0 := by omega
      exact absurd (List.length_eq_zero.mp hz) hne
    · rw [if_neg hn, if_neg hm] at h
      have hrev := congrArg List.reverse h
      simp only [List.reverse_append, List.reverse_cons, List.reverse_nil,
        List.nil_append, List.singleton_append, List.cons.injEq] at hrev
      obtain ⟨hdig, hcore⟩ := hrev
      have hmod : n % 10 = m % 10 :=
        digitChar10_inj (Nat.mod_lt n (by omega)) (Nat.mod_lt m (by omega)) hdig
      have hcore2 : natStrCore n (n / 10) = natStrCore m (m / 10) := by
        have := congrArg List.reverse hcore
        simpa using this
      have hdn : n / 10 < n := Nat.div_lt_self (by omega) (by omega)
      have hdm : m / 10 < m := Nat.div_lt_self (by omega) (by omega)
      have heq : natStr (n / 10) = natStr (m / 10) := by
        unfold natStr
        rw [← natStrCore_fuel_eq (n / 10) n (n / 10 + 1) hdn (by omega),
            ← natStrCore_fuel_eq (m / 10) m (m / 10 + 1) hdm (by omega)]
        exact hcore2
      have hdiv : n / 10 = m / 10 := ih (n / 10) hdn (m / 10) heq
      omega

lemma append_underscore_inj :
    ∀ (b1 b2 s1 s2 : PyStr), '_' ∉ s1 → '_' ∉ s2 →
      b1 ++ '_' :: s1 = b2 ++ '_' :: s2 → b1 = b2 ∧ s1 = s2 := by
  intro b1
  induction b1 with
  | nil =>
    intro b2 s1 s2 h1 h2 h
    cases b2 with
    | nil =>
      simp at h
      exact ⟨rfl, h⟩
    | cons c2 t2 =>
      simp at h
      exact absurd (h.2 ▸ List.mem_append_right t2 (List.mem_cons_self '_' s2)) h1
  | cons c t ih =>
    intro b2 s1 s2 h1 h2 h
    cases b2 with
    | nil =>
      simp at h
      exact absurd (h.2.symm ▸ List.mem_append_right t (List.mem_cons_self '_' s1)) h2
    | cons c2 t2 =>
      simp only [List.cons_append, List.cons.injEq] at h
      obtain ⟨hc, ht⟩ := h
      obtain ⟨hb, hs⟩ := ih t2 s1 s2 h1 h2 ht
      exact ⟨by rw [hc, hb], hs⟩

/-! ### The collision policy of `_build_column_mappings` -/

lemma lookupCtr_cons (k : PyStr) (v : Nat) (m : CtrMap) (key : PyStr) :
    lookupCtr ((k, v) :: m) key = if k = key then some v else lookupCtr m key := by
  by_cases h : k = key <;> simp [lookupCtr, List.find?_cons, h]

lemma go_eq_assign :
    ∀ (cols : List PyStr) (idx : Nat) (ctr : CtrMap) (done : List PyStr),
      (∀ b, lookupCtr ctr b =
        if done.count b = 0 then none else some (done.count b - 1)) →
      buildColumnMappingsGo idx ctr cols =
        cols.zip (assignNames done (basesFrom idx cols)) := by
  intro cols
  induction cols with
  | nil => intro idx ctr done h; rfl
  | cons c rest ih =>
    intro idx ctr done h
    have hb := h (baseNameOf idx c)
    by_cases h0 : done.count (baseNameOf idx c) = 0
    · rw [if_pos h0] at hb
      have hrel : ∀ b, lookupCtr ((baseNameOf idx c, 0) :: ctr) b =
          if (done ++ [baseNameOf idx c]).count b = 0 then none
          else some ((done ++ [baseNameOf idx c]).count b - 1) := by
        intro b
        rw [lookupCtr_cons]
        by_cases hbb : baseNameOf idx c = b
        · subst hbb
          rw [List.count_append]
          simp [h0]
        · rw [if_neg hbb, h b, List.count_append]
          have hz : List.count b [baseNameOf idx c] = 0 :=
            List.count_eq_zero.mpr (by
              intro hmem
              exact hbb (List.mem_singleton.mp hmem).symm)
          rw [hz, Nat.add_zero]
      have htail := ih (idx + 1) ((baseNameOf idx c, 0) :: ctr)
        (done ++ [baseNameOf idx c]) hrel
      simp only [buildColumnMappingsGo, hb]
      simp only [basesFrom, assignNames, List.zip_cons_cons]
      rw [htail]
      simp [encodeName, h0]
    · rw [if_neg h0] at hb
      have hcnt : done.count (baseNameOf idx c) - 1 + 1
          = done.count (baseNameOf idx c) := by omega
      have hrel : ∀ b,
          lookupCtr ((baseNameOf idx c, done.count (baseNameOf idx c) - 1 + 1) :: ctr) b =
          if (done ++ [baseNameOf idx c]).count b = 0 then none
          else some ((done ++ [baseNameOf idx c]).count b - 1) := by
        intro b
        rw [lookupCtr_cons]
        by_cases hbb : baseNameOf idx c = b
        · subst hbb
          rw [if_pos rfl, List.count_append]
          have hone : List.count (baseNameOf idx c) [baseNameOf idx c] = 1 := by
            simp
          rw [hone]
          have hcond : ¬(List.count (baseNameOf idx c) done + 1 = 0) := by omega
          rw [if_neg hcond]
          congr 1
        · rw [if_neg hbb, h b, List.count_append]
          have hz : List.count b [baseNameOf idx c] = 0 :=
            List.count_eq_zero.mpr (by
              intro hmem
              exact hbb (List.mem_singleton.mp hmem).symm)
          rw [hz, Nat.add_zero]
      have htail := ih (idx + 1)
        ((baseNameOf idx c, done.count (baseNameOf idx c) - 1 + 1) :: ctr)
        (done ++ [baseNameOf idx c]) hrel
      simp only [buildColumnMappingsGo, hb]
      simp only [basesFrom, assignNames, List.zip_cons_cons]
      rw [htail, hcnt]
      have hhead : encodeName (baseNameOf idx c) (done.count (baseNameOf idx c))
          = baseNameOf idx c ++ '_' :: natStr (done.count (baseNameOf idx c)) := by
        simp [encodeName, h0]
      rw [hhead]

lemma assignNames_length : ∀ (bs seen : List PyStr),
    (assignNames seen bs).length = bs.length := by
  intro bs
  induction bs with
  | nil => intro seen; rfl
  | cons b rest ih => intro seen; simp [assignNames, ih]

lemma basesFrom_length : ∀ (cols : List PyStr) (idx : Nat),
    (basesFrom idx cols).length = cols.length := by
  intro cols
  induction cols with
  | nil => intro idx; rfl
  | cons c rest ih => intro idx; simp [basesFrom, ih]

lemma map_snd_zip_eq : ∀ (l1 : List PyStr) (l2 : List PyStr),
    l1.length = l2.length → (l1.zip l2).map Prod.snd = l2 := by
  intro l1
  induction l1 with
  | nil =>
    intro l2 h
    cases l2 with
    | nil => rfl
    | cons x xs => simp at h
  | cons x xs ih =>
    intro l2 h
    cases l2 with
    | nil => simp at h
    | cons y ys =>
      simp only [List.zip_cons_cons, List.map_cons]
      rw [ih ys (by simpa using h)]

lemma mem_assignNames : ∀ (bs seen : List PyStr) (n : PyStr),
    n ∈ assignNames seen bs →
    ∃ b k, b ∈ bs ∧ seen.count b ≤ k ∧ n = encodeName b k := by
  intro bs
  induction bs with
  | nil => intro seen n h; simp [assignNames] at h
  | cons b rest ih =>
    intro seen n h
    simp only [assignNames, List.mem_cons] at h
    rcases h with h | h
    · exact ⟨b, seen.count b, List.mem_cons_self b rest, le_refl _, h⟩
    · obtain ⟨b2, k, hb2, hk, hn⟩ := ih (seen ++ [b]) n h
      refine ⟨b2, k, List.mem_cons_of_mem b hb2, ?_, hn⟩
      calc seen.count b2 ≤ (seen ++ [b]).count b2 := by
            rw [List.count_append]; omega
        _ ≤ k := hk

lemma encodeName_inj_on (univ : List PyStr)
    (hfresh : ∀ b ∈ univ, ∀ k, 1 ≤ k → b ++ '_' :: natStr k ∉ univ)
    (b1 b2 : PyStr) (hb1 : b1 ∈ univ) (hb2 : b2 ∈ univ) (k1 k2 : Nat)
    (h : encodeName b1 k1 = encodeName b2 k2) : b1 = b2 ∧ k1 = k2 := by
  unfold encodeName at h
  by_cases h1 : k1 = 0 <;> by_cases h2 : k2 = 0
  · rw [if_pos h1, if_pos h2] at h
    exact ⟨h, h1.trans h2.symm⟩
  · rw [if_pos h1, if_neg h2] at h
    exact absurd (h ▸ hb1) (hfresh b2 hb2 k2 (by omega))
  · rw [if_neg h1, if_pos h2] at h
    exact absurd (h ▸ hb2) (hfresh b1 hb1 k1 (by omega))
  · rw [if_neg h1, if_neg h2] at h
    obtain ⟨hb, hs⟩ := append_underscore_inj b1 b2 (natStr k1) (natStr k2)
      (underscore_not_mem_natStr k1) (underscore_not_mem_natStr k2) h
    exact ⟨hb, natStr_inj k1 k2 hs⟩

lemma assignNames_nodup : ∀ (bs seen : List PyStr),
    (∀ b ∈ seen ++ bs, ∀ k, 1 ≤ k → b ++ '_' :: natStr k ∉ seen ++ bs) →
    (assignNames seen bs).Nodup := by
  intro bs
  induction bs with
  | nil => intro seen h; simp [assignNames]
  | cons b rest ih =>
    intro seen hfresh
    simp only [assignNames, List.nodup_cons]
    constructor
    · intro hmem
      obtain ⟨b2, k, hb2, hk, hn⟩ := mem_assignNames rest (seen ++ [b]) _ hmem
      have hb_univ : b ∈ seen ++ b :: rest := by simp
      have hb2_univ : b2 ∈ seen ++ b :: rest := by simp [hb2]
      obtain ⟨hbe, hke⟩ := encodeName_inj_on (seen ++ b :: rest) hfresh
        b b2 hb_univ hb2_univ (seen.count b) k hn
      subst hbe
      rw [List.count_append] at hk
      simp at hk
      omega
    · have hperm : seen ++ [b] ++ rest = seen ++ b :: rest := by simp
      apply ih (seen ++ [b])
      rw [hperm]
      exact hfresh

/-! ### Claim C3 (amended): distinctness of the sanitized names -/

/-- C3 (amended): `_build_column_mappings` yields exactly N names following
the encounter-order policy (first occurrence of a base keeps the bare
name, the k-th later occurrence receives the suffix `_k`), and these N
names are pairwise distinct PROVIDED the original names are distinct (the
mapping is a dict keyed by them) and no column's base sanitized form
equals another base form extended with a numeric suffix — without the
latter hypothesis a suffixed name can collide with a later column whose
sanitized form is exactly that suffixed string, because suffixed names
are never entered into the collision counter. -/
theorem build_column_mappings_unique (cols : List PyStr)
    (hnd : cols.Nodup)
    (hfresh : ∀ b ∈ basesOf cols, ∀ k, 1 ≤ k → b ++ '_' :: natStr k ∉ basesOf cols) :
    (buildColumnMappings cols).length = cols.length
    ∧ ((buildColumnMappings cols).map Prod.snd).Nodup
    ∧ (buildColumnMappings cols).map Prod.snd = assignNames [] (basesOf cols) := by
  have hzip : buildColumnMappings cols
      = cols.zip (assignNames [] (basesOf cols)) := by
    apply go_eq_assign cols 0 [] []
    intro b
    simp [lookupCtr]
  have hlen : cols.length = (assignNames [] (basesOf cols)).length := by
    rw [assignNames_length, basesOf, basesFrom_length]
  have hsnd : (buildColumnMappings cols).map Prod.snd
      = assignNames [] (basesOf cols) := by
    rw [hzip]
    exact map_snd_zip_eq _ _ hlen
  refine ⟨?_, ?_, hsnd⟩
  · rw [hzip, List.length_zip, ← hlen, min_self]
  · rw [hsnd]
    apply assignNames_nodup (basesOf cols) []
    simpa using hfresh

/-- Helper for discharging the freshness hypothesis on concrete column
sets: if every base is too short to be another base extended by `_k`,
the extension is never a base. -/
lemma fresh_of_bounded_lengths (l : List PyStr)
    (h : ∀ b ∈ l, ∀ x ∈ l, x.length < b.length + 2) :
    ∀ b ∈ l, ∀ k, 1 ≤ k → b ++ '_' :: natStr k ∉ l := by
  intro b hb k _ hmem
  have hpos : 0 < (natStr k).length := List.length_pos.mpr (natStr_ne_nil k)
  have hlen : (b ++ '_' :: natStr k).length = b.length + 1 + (natStr k).length := by
    simp [List.length_append]
    omega
  have := h b hb _ hmem
  omega

/-- C3 witness: the distinctness theorem applied to a concrete column set
with one collision (`alpha` and `Alpha` sanitize to the same base). -/
theorem build_column_mappings_unique_witness :
    (buildColumnMappings [S "alpha", S "Alpha", S "beta"]).length
        = [S "alpha", S "Alpha", S "beta"].length
    ∧ ((buildColumnMappings [S "alpha", S "Alpha", S "beta"]).map Prod.snd).Nodup
    ∧ (buildColumnMappings [S "alpha", S "Alpha", S "beta"]).map Prod.snd
        = assignNames [] (basesOf [S "alpha", S "Alpha", S "beta"]) :=
  build_column_mappings_unique [S "alpha", S "Alpha", S "beta"] (by decide)
    (fresh_of_bounded_lengths (basesOf [S "alpha", S "Alpha", S "beta"]) (by decide))

/-- C3 counterexample: the columns `a b`, `a.b`, `a_b_1` have pairwise
distinct original names, yet the produced sanitized names are
`a_b`, `a_b_1`, `a_b_1` — only two distinct names for three columns, so
the claimed pairwise distinctness fails as stated. -/
theorem build_column_mappings_collision_cex :
    (buildColumnMappings [S "a b", S "a.b", S "a_b_1"]).map Prod.snd
        = [S "a_b", S "a_b_1", S "a_b_1"]
    ∧ ¬ ((buildColumnMappings [S "a b", S "a.b", S "a_b_1"]).map Prod.snd).Nodup
    ∧ [S "a b", S "a.b", S "a_b_1"].Nodup := by
  refine ⟨by decide, by decide, by decide⟩

/-! ### Claim C4: shape of the sanitized names -/

/-- A character allowed in a finished sanitized identifier:
`[a-z0-9_]`. -/
def isSafeIdentChar (c : Char) : Bool :=
  (decide ('a' ≤ c) && decide (c ≤ 'z')) ||
  (decide ('0' ≤ c) && decide (c ≤ '9')) ||
  c = '_'

lemma char_le_toNat {c d : Char} (h : c ≤ d) : c.toNat ≤ d.toNat := h

lemma toNat_le_char {c d : Char} (h : c.toNat ≤ d.toNat) : c ≤ d := h

lemma toNat_char_ofNat_valid (m : Nat) (h : m < 55296) :
    (Char.ofNat m).toNat = m := by
  unfold Char.ofNat
  rw [dif_pos (Or.inl h)]
  rfl

lemma toNat_a : ('a').toNat = 97 := rfl
lemma toNat_z : ('z').toNat = 122 := rfl
lemma toNat_Zup : ('Z').toNat = 90 := rfl

lemma pyLowerChar_word_safe {c : Char} (h : isWordChar c = true) :
    isSafeIdentChar (pyLowerChar c) = true := by
  unfold isWordChar at h
  simp only [Bool.or_eq_true, Bool.and_eq_true, decide_eq_true_eq] at h
  unfold pyLowerChar
  by_cases hAZ : 'A' ≤ c ∧ c ≤ 'Z'
  · rw [if_pos hAZ]
    have h1 : 65 ≤ c.toNat := char_le_toNat hAZ.1
    have h2 : c.toNat ≤ 90 := char_le_toNat hAZ.2
    have hm : (Char.ofNat (c.toNat + 32)).toNat = c.toNat + 32 :=
      toNat_char_ofNat_valid _ (by omega)
    unfold isSafeIdentChar
    simp only [Bool.or_eq_true, Bool.and_eq_true, decide_eq_true_eq]
    exact Or.inl (Or.inl ⟨toNat_le_char (by rw [hm, toNat_a]; omega),
      toNat_le_char (by rw [hm, toNat_z]; omega)⟩)
  · rw [if_neg hAZ]
    unfold isSafeIdentChar
    simp only [Bool.or_eq_true, Bool.and_eq_true, decide_eq_true_eq]
    rcases h with ((h | h) | h) | h
    · exact absurd h hAZ
    · exact Or.inl (Or.inl h)
    · exact Or.inl (Or.inr h)
    · exact Or.inr h

lemma subst_word (name : PyStr) :
    ∀ c ∈ name.map (fun c => if isWordChar c then c else '_'),
      isWordChar c = true := by
  intro c hc
  obtain ⟨a, _, ha⟩ := List.mem_map.mp hc
  by_cases hw : isWordChar a
  · rw [if_pos hw] at ha
    rw [← ha]
    exact hw
  · rw [if_neg hw] at ha
    rw [← ha]
    decide

lemma col_marker_word : ∀ c ∈ S "col_", isWordChar c = true := by decide

lemma prefixed_word (l : PyStr) (hl : ∀ a ∈ l, isWordChar a = true) :
    ∀ a ∈ (match l with
           | [] => ([] : PyStr)
           | c :: rest =>
             if pyIsAlpha c = false ∧ c ≠ '_' then S "col_" ++ c :: rest
             else c :: rest),
      isWordChar a = true := by
  cases l with
  | nil => intro a ha; simp at ha
  | cons c rest =>
    intro a ha
    simp only at ha
    split at ha
    · rcases List.mem_append.mp ha with h | h
      · exact col_marker_word a h
      · exact hl a h
    · exact hl a ha

lemma sanitizeColumnName_chars (name : PyStr) :
    ∀ c ∈ sanitizeColumnName name, isSafeIdentChar c = true := by
  intro c hc
  simp only [sanitizeColumnName, pyLower] at hc
  obtain ⟨a, ha, hae⟩ := List.mem_map.mp hc
  rw [← hae]
  exact pyLowerChar_word_safe
    (prefixed_word _ (subst_word name) a (List.mem_of_mem_take ha))

lemma sanitizeColumnName_length (name : PyStr) :
    (sanitizeColumnName name).length ≤ 63 := by
  simp only [sanitizeColumnName, pyLower]
  rw [List.length_map, List.length_take]
  omega

lemma pyLowerChar_alpha_lower {c : Char} (h : pyIsAlpha c = true) :
    'a' ≤ pyLowerChar c ∧ pyLowerChar c ≤ 'z' := by
  unfold pyIsAlpha at h
  simp only [Bool.or_eq_true, Bool.and_eq_true, decide_eq_true_eq] at h
  unfold pyLowerChar
  rcases h with h | h
  · rw [if_pos h]
    have h1 : 65 ≤ c.toNat := char_le_toNat h.1
    have h2 : c.toNat ≤ 90 := char_le_toNat h.2
    have hm : (Char.ofNat (c.toNat + 32)).toNat = c.toNat + 32 :=
      toNat_char_ofNat_valid _ (by omega)
    exact ⟨toNat_le_char (by rw [hm, toNat_a]; omega),
      toNat_le_char (by rw [hm, toNat_z]; omega)⟩
  · have h1 : 97 ≤ c.toNat := char_le_toNat h.1
    have h2 : c.toNat ≤ 122 := char_le_toNat h.2
    rw [if_neg (by
      intro hAZ
      have h3 := char_le_toNat hAZ.2
      rw [toNat_Zup] at h3
      omega)]
    exact ⟨h.1, h.2⟩

lemma pyLowerChar_underscore : pyLowerChar '_' = '_' := by decide

lemma sanitizeColumnName_head (name : PyStr) (c0 : Char) (rest : PyStr)
    (h : sanitizeColumnName name = c0 :: rest) :
    ('a' ≤ c0 ∧ c0 ≤ 'z') ∨ c0 = '_' := by
  simp only [sanitizeColumnName, pyLower] at h
  cases hsub : name.map (fun c => if isWordChar c then c else '_') with
  | nil => rw [hsub] at h; simp at h
  | cons h0 t =>
    rw [hsub] at h
    simp only at h
    by_cases hc : pyIsAlpha h0 = false ∧ h0 ≠ '_'
    · rw [if_pos hc] at h
      have hred : (List.take 63 (S "col_" ++ h0 :: t)).map pyLowerChar
          = pyLowerChar 'c' :: (List.take 62 (S "ol_" ++ h0 :: t)).map pyLowerChar := by
        rfl
      rw [hred] at h
      have hc0 : c0 = pyLowerChar 'c' := ((List.cons.injEq _ _ _ _).mp h).1.symm
      rw [hc0]
      left
      constructor <;> decide
    · rw [if_neg hc] at h
      have hred : (List.take 63 (h0 :: t)).map pyLowerChar
          = pyLowerChar h0 :: (List.take 62 t).map pyLowerChar := rfl
      rw [hred] at h
      have hc0 : c0 = pyLowerChar h0 := ((List.cons.injEq _ _ _ _).mp h).1.symm
      rw [Classical.not_and_iff_or_not_not] at hc
      rcases hc with hc | hc
      · have halpha : pyIsAlpha h0 = true := by
          revert hc
          cases pyIsAlpha h0 <;> simp
        rw [hc0]
        exact Or.inl (pyLowerChar_alpha_lower halpha)
      · have hu : h0 = '_' := by
          revert hc
          by_cases he : h0 = '_' <;> simp [he]
        rw [hc0, hu, pyLowerChar_underscore]
        exact Or.inr rfl

lemma buildColumnMappings_map_snd (cols : List PyStr) :
    (buildColumnMappings cols).map Prod.snd = assignNames [] (basesOf cols) := by
  have hzip : buildColumnMappings cols
      = cols.zip (assignNames [] (basesOf cols)) := by
    apply go_eq_assign cols 0 [] []
    intro b
    simp [lookupCtr]
  rw [hzip]
  apply map_snd_zip_eq
  rw [assignNames_length, basesOf, basesFrom_length]

lemma mem_basesFrom :
    ∀ (cols : List PyStr) (idx : Nat) (b : PyStr),
      b ∈ basesFrom idx cols → ∃ i col, b = baseNameOf i col := by
  intro cols
  induction cols with
  | nil => intro idx b h; simp [basesFrom] at h
  | cons c rest ih =>
    intro idx b h
    simp only [basesFrom, List.mem_cons] at h
    rcases h with h | h
    · exact ⟨idx, c, h⟩
    · exact ih (idx + 1) b h

lemma natStr_chars_safe (k : Nat) : ∀ c ∈ natStr k, isSafeIdentChar c = true := by
  intro c hc
  obtain ⟨d, hd, he⟩ := mem_natStrCore (k + 1) k c hc
  rw [he]
  interval_cases d <;> decide

lemma column_marker_chars_safe : ∀ c ∈ S "column_", isSafeIdentChar c = true := by
  decide

lemma baseNameOf_ne_nil (idx : Nat) (col : PyStr) : baseNameOf idx col ≠ [] := by
  simp only [baseNameOf]
  split
  · simp [S]
  · assumption

lemma baseNameOf_chars (idx : Nat) (col : PyStr) :
    ∀ c ∈ baseNameOf idx col, isSafeIdentChar c = true := by
  intro c hc
  simp only [baseNameOf] at hc
  split at hc
  · rcases List.mem_append.mp hc with h | h
    · exact column_marker_chars_safe c h
    · exact natStr_chars_safe idx c h
  · exact sanitizeColumnName_chars col c hc

lemma baseNameOf_head (idx : Nat) (col : PyStr) :
    ∃ c0 rest, baseNameOf idx col = c0 :: rest
      ∧ (('a' ≤ c0 ∧ c0 ≤ 'z') ∨ c0 = '_') := by
  simp only [baseNameOf]
  split
  · refine ⟨'c', S "olumn_" ++ natStr idx, rfl, Or.inl ⟨by decide, by decide⟩⟩
  · cases hs : sanitizeColumnName col with
    | nil => simp_all
    | cons c0 rest =>
      exact ⟨c0, rest, rfl, sanitizeColumnName_head col c0 rest hs⟩

lemma baseNameOf_length (idx : Nat) (col : PyStr) :
    (baseNameOf idx col).length ≤ 63
    ∨ ∃ i, baseNameOf idx col = S "column_" ++ natStr i := by
  simp only [baseNameOf]
  split
  · exact Or.inr ⟨idx, rfl⟩
  · exact Or.inl (sanitizeColumnName_length col)

/-- C4 (amended): every sanitized name produced by the column-name
mapping is non-empty, contains only characters in `[a-z0-9_]` (hence is
fully lower-cased), and begins with a lower-case letter or an underscore;
each name is a base sanitized form possibly extended with a collision
suffix, and the bases themselves are at most 63 characters (apart from
the `column_{i}` fallback for empty sanitizations, whose length follows
the column position).  The claimed 63-character bound on the FINAL name
does not hold in general, because the collision suffix is appended after
the 63-character truncation. -/
theorem build_column_mappings_name_shape :
    ∀ (cols : List PyStr) (name : PyStr),
      name ∈ (buildColumnMappings cols).map Prod.snd →
      name ≠ []
      ∧ (∀ c ∈ name, isSafeIdentChar c = true)
      ∧ (∃ c0 rest, name = c0 :: rest ∧ (('a' ≤ c0 ∧ c0 ≤ 'z') ∨ c0 = '_'))
      ∧ (∃ b k, name = encodeName b k
          ∧ (b.length ≤ 63 ∨ ∃ i, b = S "column_" ++ natStr i)) := by
  intro cols name hmem
  rw [buildColumnMappings_map_snd] at hmem
  obtain ⟨b, k, hb, _, hname⟩ := mem_assignNames (basesOf cols) [] name hmem
  obtain ⟨i, col, hbase⟩ := mem_basesFrom cols 0 b hb
  subst hbase
  obtain ⟨c0, rest, hhead, hc0⟩ := baseNameOf_head i col
  by_cases hk : k = 0
  · subst hk
    have hn : name = baseNameOf i col := by simpa [encodeName] using hname
    subst hn
    refine ⟨baseNameOf_ne_nil i col, baseNameOf_chars i col, ⟨c0, rest, hhead, hc0⟩,
      ⟨baseNameOf i col, 0, by simp [encodeName], baseNameOf_length i col⟩⟩
  · have hn : name = baseNameOf i col ++ '_' :: natStr k := by
      simpa [encodeName, hk] using hname
    subst hn
    refine ⟨?_, ?_, ?_, ?_⟩
    · simp [baseNameOf_ne_nil i col]
    · intro c hc
      rcases List.mem_append.mp hc with h | h
      · exact baseNameOf_chars i col c h
      · rcases List.mem_cons.mp h with h | h
        · rw [h]; decide
        · exact natStr_chars_safe k c h
    · refine ⟨c0, rest ++ '_' :: natStr k, ?_, hc0⟩
      rw [hhead]
      rfl
    · exact ⟨baseNameOf i col, k, by simp [encodeName, hk], baseNameOf_length i col⟩

/-- C4 witness: the shape theorem applied to the single column `Name!`,
whose produced sanitized name is `name_`. -/
theorem build_column_mappings_name_shape_witness :
    S "name_" ≠ []
    ∧ (∀ c ∈ S "name_", isSafeIdentChar c = true)
    ∧ (∃ c0 rest, S "name_" = c0 :: rest ∧ (('a' ≤ c0 ∧ c0 ≤ 'z') ∨ c0 = '_'))
    ∧ (∃ b k, S "name_" = encodeName b k
        ∧ (b.length ≤ 63 ∨ ∃ i, b = S "column_" ++ natStr i)) :=
  build_column_mappings_name_shape [S "Name!"] (S "name_") (by decide)

/-- C4 counterexample: two 63-character columns that sanitize to the same
base make the second produced name 65 characters long, above the claimed
bound of 63, because the collision suffix is appended after
truncation. -/
theorem build_column_mappings_length_cex :
    (buildColumnMappings [List.replicate 63 'a', List.replicate 63 'A']).map Prod.snd
      = [List.replicate 63 'a', List.replicate 63 'a' ++ S "_1"]
    ∧ (List.replicate 63 'a' ++ S "_1").length = 65 := by
  constructor
  · decide
  · decide

/-! ### The pandas data model used by `data_cleaner.py` and
`excel_processor.py`.

A DataFrame is a list of named, dtype-tagged columns of cell values.
Cell values cover the forms the pipeline handles: nulls (NaN/None/NaT),
integers, floats (modelled as exact rationals), booleans, strings and
datetimes (modelled as opaque integer codes, ordered like the moments
they denote). -/

/-- A pandas dtype, as observed through `df[col].dtype` comparisons and
the `pandas.api.types` predicates used by the source. -/
inductive DType where
  | obj
  | i64
  | f64
  | dt64
  | boolT
deriving DecidableEq, Repr

/-- A cell value. -/
inductive Value where
  | vNull
  | vInt (n : Int)
  | vFloat (q : ℚ)
  | vBool (b : Bool)
  | vStr (s : PyStr)
  | vDate (t : Int)
deriving DecidableEq, Repr

/-- A pandas Series with its column label. -/
structure PdColumn where
  name : PyStr
  dtype : DType
  values : List Value
deriving DecidableEq, Repr

instance : Inhabited PdColumn := ⟨⟨[], .obj, []⟩⟩

/-- A pandas DataFrame (columns of equal length). -/
structure PdFrame where
  cols : List PdColumn
deriving DecidableEq, Repr

/-- `len(df)`: the number of rows. -/
def nRows (df : PdFrame) : Nat :=
  match df.cols with
  | [] => 0
  | c :: _ => c.values.length

/-- `df.shape[1]`: the number of columns. -/
def nCols (df : PdFrame) : Nat := df.cols.length

/-- ASCII digit test. -/
def isDigitChar (c : Char) : Bool := decide ('0' ≤ c) && decide (c ≤ '9')

/-- Numeric value of a digit character. -/
def digitVal (c : Char) : Nat := c.toNat - 48

/-- Value of a digit string read as an integer part. -/
def natFromDigitsQ (ds : PyStr) : ℚ :=
  ds.foldl (fun acc c => acc * 10 + (digitVal c : ℚ)) 0

/-- Value of a digit string read as a fractional part. -/
def fracFromDigitsQ (ds : PyStr) : ℚ :=
  ds.foldr (fun c acc => ((digitVal c : ℚ) + acc) / 10) 0

/-- Numeric parsing of a string cell, modelling `pd.to_numeric` for the
decimal literals the pipeline sees: surrounding whitespace, an optional
sign, digits with an optional decimal point.  Returns the exact value and
whether a decimal point was present (which decides int64 versus float64
element types).  Exotic forms (exponents, inf/nan spellings, underscores)
are out of scope and parse as failures. -/
def parseNumStr (s : PyStr) : Option (ℚ × Bool) :=
  let t := pyStrip s
  let signAndRest : ℚ × PyStr :=
    match t with
    | '-' :: r => (-1, r)
    | '+' :: r => (1, r)
    | _ => (1, t)
  let intDigits := signAndRest.2.takeWhile isDigitChar
  let rest := signAndRest.2.dropWhile isDigitChar
  match rest with
  | [] =>
    if intDigits.isEmpty then none
    else some (signAndRest.1 * natFromDigitsQ intDigits, false)
  | '.' :: frac =>
    if frac.all isDigitChar && !(intDigits.isEmpty && frac.isEmpty) then
      some (signAndRest.1 * (natFromDigitsQ intDigits + fracFromDigitsQ frac), true)
    else none
  | _ => none

/-- `pd.to_numeric(value, errors="coerce")` on one cell: numbers pass
through, booleans coerce to 0/1, unparseable cells (including datetimes,
which only appear here for columns that were never numeric) become
null. -/
def toNumericValue : Value → Value
  | .vNull => .vNull
  | .vInt n => .vInt n
  | .vFloat q => .vFloat q
  | .vBool b => .vInt (if b then 1 else 0)
  | .vDate _ => .vNull
  | .vStr s =>
    match parseNumStr s with
    | some (q, false) => .vInt q.num
    | some (q, true) => .vFloat q
    | none => .vNull

/-- Value of a digit string as a natural number. -/
def natFromDigits (ds : PyStr) : Nat :=
  ds.foldl (fun acc c => acc * 10 + digitVal c) 0

/-- Datetime parsing of a string cell, modelling `pd.to_datetime` for ISO
`YYYY-MM-DD` strings; other strings fail (coerce to NaT).  The datetime
code orders like the date. -/
def parseDateStr (s : PyStr) : Option Int :=
  match pyStrip s with
  | [y1, y2, y3, y4, '-', m1, m2, '-', d1, d2] =>
    if [y1, y2, y3, y4, m1, m2, d1, d2].all isDigitChar then
      some ((natFromDigits [y1, y2, y3, y4] * 10000 +
             natFromDigits [m1, m2] * 100 + natFromDigits [d1, d2] : Nat) : Int)
    else none
  | _ => none

/-- `pd.to_datetime(value, errors="coerce")` on one cell: datetimes pass
through, integers and floats are epoch offsets, parseable date strings
convert, everything else becomes NaT. -/
def toDatetimeValue : Value → Value
  | .vNull => .vNull
  | .vDate t => .vDate t
  | .vInt n => .vDate n
  | .vFloat q => .vDate ⌊q⌋
  | .vBool _ => .vNull
  | .vStr s =>
    match parseDateStr s with
    | some t => .vDate t
    | none => .vNull

/-- The numeric content of a cell, when it has one. -/
def valueToQ : Value → Option ℚ
  | .vInt n => some (n : ℚ)
  | .vFloat q => some q
  | _ => none

/-- Insertion into a sorted list of rationals. -/
def insertSorted (q : ℚ) : List ℚ → List ℚ
  | [] => [q]
  | x :: xs => if q ≤ x then q :: x :: xs else x :: insertSorted q xs

/-- Insertion sort (the order in which pandas computes a median). -/
def sortQ (l : List ℚ) : List ℚ := l.foldr insertSorted []

/-- `Series.median()` over the non-null numeric values: the middle
element, or the mean of the two middle elements. -/
def medianOf (l : List ℚ) : ℚ :=
  let s := sortQ l
  let n := s.length
  if n % 2 = 1 then s.getD (n / 2) 0
  else (s.getD (n / 2 - 1) 0 + s.getD (n / 2) 0) / 2

/-- `Series.mode(dropna=True).iloc[0]`: a most frequent non-null value.
Among equally frequent values the model picks the first encountered
(pandas sorts the modes; no claim depends on the tie-break). -/
def modeValue (l : List Value) : Option Value :=
  let nn := l.filter (fun v => !(v == Value.vNull))
  (nn.foldl
    (fun best v =>
      let c := nn.count v
      match best with
      | none => some (v, c)
      | some (bv, bc) => if c > bc then some (v, c) else some (bv, bc))
    none).map (·.1)

/-! ### The cleaning pipeline (`data_cleaner.py`) -/

/-- The per-issue-type tally (`issue_summary`), keyed by the four issue
types the cleaner records. -/
structure IssueSummary where
  missingHeader : Nat
  invalidDatetime : Nat
  missingValues : Nat
  duplicates : Nat
deriving DecidableEq, Repr

/-- `sum(issue_summary.values())`. -/
def IssueSummary.total (s : IssueSummary) : Nat :=
  s.missingHeader + s.invalidDatetime + s.missingValues + s.duplicates

/-- The `metrics` dict initialised by `_reset_state`. -/
structure CleanMetrics where
  filledNullValues : Nat
  rowsDropped : Nat
  duplicatesRemoved : Nat
  numericConversions : Nat
  datetimeConversions : Nat
  textStandardized : Nat
deriving DecidableEq, Repr

/-- `sum(metrics.values())` (the `cells_modified` figure). -/
def CleanMetrics.total (m : CleanMetrics) : Nat :=
  m.filledNullValues + m.rowsDropped + m.duplicatesRemoved +
  m.numericConversions + m.datetimeConversions + m.textStandardized

/-- The cleaner's mutable bookkeeping (`issue_summary` plus `metrics`). -/
structure CleanState where
  summary : IssueSummary
  metrics : CleanMetrics
deriving DecidableEq, Repr

/-- `_reset_state`. -/
def initCleanState : CleanState := ⟨⟨0, 0, 0, 0⟩, ⟨0, 0, 0, 0, 0, 0⟩⟩

/-- A header triggering a rename: null-like/blank or `Unnamed:`-prefixed
(headers are strings in this model, so the `pd.isna` disjunct is the
blank case). -/
def isBadHeader (name : PyStr) : Bool :=
  (pyStrip name).isEmpty || (S "Unnamed:").isPrefixOf name

/-- Step 1, `_rename_unnamed_columns`: walk the original header list with
positions; each bad header renames every column currently carrying that
label (as `df.rename` does) and records one `missing_header` issue. -/
def renameUnnamedColumns (df : PdFrame) (st : CleanState) : PdFrame × CleanState :=
  (df.cols.map (·.name)).enum.foldl
    (fun acc p =>
      if isBadHeader p.2 then
        (⟨acc.1.cols.map (fun c =>
            if c.name = p.2 then { c with name := S "column_" ++ natStr p.1 } else c)⟩,
         { acc.2 with summary :=
            { acc.2.summary with missingHeader := acc.2.summary.missingHeader + 1 } })
      else acc)
    (df, st)

/-- `pd.to_numeric(series, errors="coerce")`. -/
def convertNumericVals (vals : List Value) : List Value := vals.map toNumericValue

/-- `pd.to_datetime(series, errors="coerce")`. -/
def convertDatetimeVals (vals : List Value) : List Value := vals.map toDatetimeValue

/-- The dtype pandas gives a numeric-coerced object column: float64 when
any null is present or any element is fractional, else int64. -/
def numericDtypeFor (converted : List Value) : DType :=
  if converted.any (fun v => v == Value.vNull) then .f64
  else if converted.all (fun v => match v with | .vInt _ => true | _ => false) then .i64
  else .f64

/-- In a float64 column the integer-parsed cells are floats too. -/
def floatifyIfF64 (d : DType) (vals : List Value) : List Value :=
  if d = .f64 then
    vals.map (fun v => match v with | .vInt n => .vFloat (n : ℚ) | v => v)
  else vals

/-- Step 2 for one column, `_standardize_data_types` loop body: an object
column is converted to numeric when coerced non-nulls exceed 80% of ALL
its values; otherwise to datetime when coerced non-nulls exceed 50%.
Returns the column together with the numeric-conversion count, the
datetime-conversion count and the `invalid_datetime` issue count it
contributes. -/
def standardizeOneColumn (c : PdColumn) : PdColumn × Nat × Nat × Nat :=
  if c.dtype = .obj then
    let n := c.values.length
    let numeric := convertNumericVals c.values
    let parsed := numeric.countP (fun v => !(v == Value.vNull))
    if 0 < n ∧ 5 * parsed > 4 * n then
      let d := numericDtypeFor numeric
      ({ name := c.name, dtype := d, values := floatifyIfF64 d numeric }, parsed, 0, 0)
    else
      let dts := convertDatetimeVals c.values
      let parsedD := dts.countP (fun v => !(v == Value.vNull))
      if 0 < n ∧ 2 * parsedD > n then
        let invalid := dts.countP (fun v => v == Value.vNull)
        ({ name := c.name, dtype := .dt64, values := dts }, 0, parsedD,
         if invalid > 0 then 1 else 0)
      else (c, 0, 0, 0)
  else (c, 0, 0, 0)

/-- Step 2, `_standardize_data_types`, over the whole frame (the columns
are treated independently by the source loop). -/
def standardizeDataTypes (df : PdFrame) (st : CleanState) : PdFrame × CleanState :=
  let results := df.cols.map standardizeOneColumn
  (⟨results.map (·.1)⟩,
   { summary := { st.summary with invalidDatetime :=
        st.summary.invalidDatetime + (results.map (fun r => r.2.2.2)).sum },
     metrics := { st.metrics with
        numericConversions :=
          st.metrics.numericConversions + (results.map (fun r => r.2.1)).sum,
        datetimeConversions :=
          st.metrics.datetimeConversions + (results.map (fun r => r.2.2.1)).sum } })

/-- Replace the nulls of a column by a fill value (`Series.fillna`). -/
def fillNulls (vals : List Value) (fill : Value) : List Value :=
  vals.map (fun v => if v == Value.vNull then fill else v)

/-- `df.dropna(subset=[col j])`: keep the rows whose j-th cell is
non-null. -/
def dropRowsWhereNull (df : PdFrame) (j : Nat) : PdFrame :=
  let mask := (df.cols.getD j default).values.map (fun v => !(v == Value.vNull))
  ⟨df.cols.map (fun c =>
      { c with values :=
          (mask.zip c.values).filterMap (fun p => if p.1 then some p.2 else none) })⟩

/-- Record a `missing_values` issue plus `filled_null_values`. -/
def recordFill (st : CleanState) (missing : Nat) : CleanState :=
  { summary := { st.summary with missingValues := st.summary.missingValues + 1 },
    metrics := { st.metrics with
      filledNullValues := st.metrics.filledNullValues + missing } }

/-- Record a `missing_values` issue plus `rows_dropped`. -/
def recordDrop (st : CleanState) (removed : Nat) : CleanState :=
  { summary := { st.summary with missingValues := st.summary.missingValues + 1 },
    metrics := { st.metrics with rowsDropped := st.metrics.rowsDropped + removed } }

/-- Step 3, `_handle_missing_values`: per column in order, fill numeric
columns with the median (a no-op fill when every value is null, since the
median of nothing is NaN, though the issue and metric are still
recorded), fill object columns with the mode (or `Unknown`), and drop the
null rows of other (datetime/bool) columns. -/
def handleMissingValues (df : PdFrame) (st : CleanState) : PdFrame × CleanState :=
  (List.range df.cols.length).foldl
    (fun acc j =>
      let c := acc.1.cols.getD j default
      let missing := c.values.countP (fun v => v == Value.vNull)
      if missing = 0 then acc
      else if c.dtype = .i64 ∨ c.dtype = .f64 then
        let nonNull := c.values.filterMap valueToQ
        let newVals :=
          if nonNull.isEmpty then c.values
          else fillNulls c.values (.vFloat (medianOf nonNull))
        (⟨acc.1.cols.set j { c with values := newVals }⟩, recordFill acc.2 missing)
      else if c.dtype = .obj then
        let fill := (modeValue c.values).getD (.vStr (S "Unknown"))
        (⟨acc.1.cols.set j { c with values := fillNulls c.values fill }⟩,
         recordFill acc.2 missing)
      else
        (dropRowsWhereNull acc.1 j, recordDrop acc.2 missing))
    (df, st)

/-- Step 4 for one column, `_standardize_dates` loop body: an object
column converts to datetime as soon as ANY value coerces.  Returns the
column, the datetime-conversion count and the `invalid_datetime` issue
count. -/
def standardizeDatesOneColumn (c : PdColumn) : PdColumn × Nat × Nat :=
  if c.dtype = .obj then
    let dts := convertDatetimeVals c.values
    let notna := dts.countP (fun v => !(v == Value.vNull))
    if 0 < notna then
      let invalid := dts.countP (fun v => v == Value.vNull)
      ({ name := c.name, dtype := .dt64, values := dts }, notna,
       if invalid > 0 then 1 else 0)
    else (c, 0, 0)
  else (c, 0, 0)

/-- Step 4, `_standardize_dates`, over the whole frame. -/
def standardizeDates (df : PdFrame) (st : CleanState) : PdFrame × CleanState :=
  let results := df.cols.map standardizeDatesOneColumn
  (⟨results.map (·.1)⟩,
   { summary := { st.summary with invalidDatetime :=
        st.summary.invalidDatetime + (results.map (fun r => r.2.2)).sum },
     metrics := { st.metrics with datetimeConversions :=
        st.metrics.datetimeConversions + (results.map (fun r => r.2.1)).sum } })

/-- The rows of a frame (pandas `drop_duplicates` compares whole rows,
with nulls comparing equal). -/
def rowsOf (df : PdFrame) : List (List Value) :=
  (List.range (nRows df)).map (fun i => df.cols.map (fun c => c.values.getD i .vNull))

/-- Keep-first de-duplication over a row list. -/
def dropDupGo (seen : List (List Value)) : List (List Value) → List (List Value)
  | [] => []
  | r :: rs => if r ∈ seen then dropDupGo seen rs else r :: dropDupGo (r :: seen) rs

/-- `df.drop_duplicates()` on the row list. -/
def dropDuplicates (rows : List (List Value)) : List (List Value) :=
  dropDupGo [] rows

/-- Rebuild a frame from a row list, keeping names and dtypes. -/
def frameFromRows (df : PdFrame) (rows : List (List Value)) : PdFrame :=
  ⟨df.cols.enum.map (fun p =>
      { p.2 with values := rows.map (fun r => r.getD p.1 .vNull) })⟩

/-- Step 5, `_remove_duplicates`: drop duplicate rows, recording one
`duplicates` issue and the removed count when anything was removed. -/
def removeDuplicates (df : PdFrame) (st : CleanState) : PdFrame × CleanState :=
  let rows := rowsOf df
  let deduped := dropDuplicates rows
  let removed := rows.length - deduped.length
  let df2 := frameFromRows df deduped
  if 0 < removed then
    (df2,
     { summary := { st.summary with duplicates := st.summary.duplicates + 1 },
       metrics := { st.metrics with
          duplicatesRemoved := st.metrics.duplicatesRemoved + removed } })
  else (df2, st)

/-- `value.strip() if isinstance(value, str) else value`. -/
def stripValue : Value → Value
  | .vStr s => .vStr (pyStrip s)
  | v => v

/-- Step 6 for one column, `_standardize_text` loop body: trim string
cells of an object column; the column is replaced (and the change count
recorded) only when something changed. -/
def standardizeTextOneColumn (c : PdColumn) : PdColumn × Nat :=
  if c.dtype = .obj then
    let trimmed := c.values.map stripValue
    let changes := (c.values.zip trimmed).countP (fun p => !(p.1 == p.2))
    if 0 < changes then ({ c with values := trimmed }, changes) else (c, 0)
  else (c, 0)

/-- Step 6, `_standardize_text`, over the whole frame. -/
def standardizeText (df : PdFrame) (st : CleanState) : PdFrame × CleanState :=
  let results := df.cols.map standardizeTextOneColumn
  (⟨results.map (·.1)⟩,
   { st with metrics := { st.metrics with textStandardized :=
        st.metrics.textStandardized + (results.map (·.2)).sum } })

/-- Round half to even (Python `round`), on exact rationals. -/
def roundHalfEven (q : ℚ) : Int :=
  let f := q.floor
  let r := q - f
  if r < 1 / 2 then f
  else if 1 / 2 < r then f + 1
  else if f % 2 = 0 then f else f + 1

/-- Python `round(q, 4)`. -/
def pyRound4 (q : ℚ) : ℚ := (roundHalfEven (q * 10000) : ℚ) / 10000

/-- `max(0.0, 1.0 - total_issues / total_cells)`. -/
def qualityFormula (issues cells : Nat) : ℚ :=
  max 0 (1 - (issues : ℚ) / (cells : ℚ))

/-- The metadata dict returned by `DataCleaner.clean` (the fields the
specification talks about). -/
structure CleanMeta where
  originalRowCount : Nat
  originalColumnCount : Nat
  cleanedRowCount : Nat
  cleanedColumnCount : Nat
  rowsRemoved : Nat
  summary : IssueSummary
  metrics : CleanMetrics
  qualityScore : ℚ
  cellsModified : Nat
deriving DecidableEq, Repr

/-- The six cleaning steps of `DataCleaner.clean`, chained over the
frame and the bookkeeping state. -/
def cleanStages (df : PdFrame) : PdFrame × CleanState :=
  let r1 := renameUnnamedColumns df initCleanState
  let r2 := standardizeDataTypes r1.1 r1.2
  let r3 := handleMissingValues r2.1 r2.2
  let r4 := standardizeDates r3.1 r3.2
  let r5 := removeDuplicates r4.1 r4.2
  standardizeText r5.1 r5.2

/-- The metadata dict `DataCleaner.clean` assembles after the steps; the
reported quality score is the formula value rounded to four decimal
places (`round(quality_score, 4)`). -/
def cleanMetaOf (origRows origCols : Nat) (cleaned : PdFrame)
    (st : CleanState) : CleanMeta :=
  { originalRowCount := origRows,
    originalColumnCount := origCols,
    cleanedRowCount := nRows cleaned,
    cleanedColumnCount := nCols cleaned,
    rowsRemoved := origRows - nRows cleaned,
    summary := st.summary,
    metrics := st.metrics,
    qualityScore := pyRound4
      (if 0 < origRows * max origCols 1
       then qualityFormula st.summary.total (origRows * max origCols 1)
       else 0),
    cellsModified := st.metrics.total }

/-- `DataCleaner.clean`: reset state, run the six steps, and assemble the
metadata from the original shape and the final state. -/
def clean (df : PdFrame) : PdFrame × CleanMeta :=
  ((cleanStages df).1,
   cleanMetaOf (nRows df) (nCols df) (cleanStages df).1 (cleanStages df).2)

/-! ### Rounding and quality-score lemmas -/

lemma rat_floor_eq_int_floor (q : ℚ) : q.floor = ⌊q⌋ := rfl

lemma roundHalfEven_nonneg (q : ℚ) (h : 0 ≤ q) : 0 ≤ roundHalfEven q := by
  have hf : 0 ≤ ⌊q⌋ := Int.floor_nonneg.mpr h
  simp only [roundHalfEven, rat_floor_eq_int_floor]
  split
  · exact hf
  · split
    · omega
    · split <;> omega

lemma roundHalfEven_le_of_le (q : ℚ) (n : Int) (h : q ≤ n) : roundHalfEven q ≤ n := by
  have hfl : ⌊q⌋ ≤ n := by
    have h2 := Int.floor_le_floor h
    rwa [Int.floor_intCast] at h2
  simp only [roundHalfEven, rat_floor_eq_int_floor]
  split
  · exact hfl
  · rename_i h1
    rw [not_lt] at h1
    have hlt : ⌊q⌋ < n := by
      by_contra hc
      push_neg at hc
      have hcast : (n : ℚ) ≤ (⌊q⌋ : ℚ) := Int.cast_le.mpr hc
      have hfle : (⌊q⌋ : ℚ) ≤ q := Int.floor_le q
      linarith
    split
    · omega
    · split <;> omega

lemma pyRound4_bounds (q : ℚ) (h0 : 0 ≤ q) (h1 : q ≤ 1) :
    0 ≤ pyRound4 q ∧ pyRound4 q ≤ 1 := by
  have ha : 0 ≤ roundHalfEven ( q * 10000) := roundHalfEven_nonneg _ (by positivity)
  have hb : roundHalfEven (q * 10000) ≤ 10000 := by
    apply roundHalfEven_le_of_le
    push_cast
    linarith
  constructor
  · unfold pyRound4
    apply div_nonneg _ (by norm_num)
    exact_mod_cast ha
  · unfold pyRound4
    rw [div_le_one (by norm_num)]
    exact_mod_cast hb

lemma qualityFormula_nonneg (i c : Nat) : 0 ≤ qualityFormula i c :=
  le_max_left 0 _

lemma qualityFormula_le_one (i c : Nat) : qualityFormula i c ≤ 1 := by
  unfold qualityFormula
  apply max_le (by norm_num)
  have hq : 0 ≤ (i : ℚ) / (c : ℚ) := by positivity
  linarith

lemma qualityFormula_strict_mono (i1 i2 c : Nat) (h12 : i1 < i2) (h2c : i2 ≤ c) :
    qualityFormula i2 c < qualityFormula i1 c := by
  have hc0 : 0 < c := by omega
  have hc : 0 < (c : ℚ) := by exact_mod_cast hc0
  unfold qualityFormula
  have e2 : (0 : ℚ) ≤ 1 - (i2 : ℚ) / (c : ℚ) := by
    rw [sub_nonneg, div_le_one hc]
    exact_mod_cast h2c
  have e1 : (0 : ℚ) ≤ 1 - (i1 : ℚ) / (c : ℚ) := by
    rw [sub_nonneg, div_le_one hc]
    have : i1 ≤ c := by omega
    exact_mod_cast this
  rw [max_eq_right e2, max_eq_right e1]
  have hdiv : (i1 : ℚ) / (c : ℚ) < (i2 : ℚ) / (c : ℚ) := by
    have hlt : (i1 : ℚ) < (i2 : ℚ) := by exact_mod_cast h12
    exact div_lt_div_of_pos_right hlt hc
  linarith

/-! ### Claim C5: the quality score -/

/-- A concrete one-column table with one duplicate row: cleaning it
records exactly one issue over three original cells. -/
def dupFrame : PdFrame :=
  ⟨[⟨S "name", .obj, [.vStr (S "a"), .vStr (S "a"), .vStr (S "b")]⟩]⟩

lemma clean_snd (df : PdFrame) :
    (clean df).2
      = cleanMetaOf (nRows df) (nCols df) (cleanStages df).1 (cleanStages df).2 :=
  rfl

lemma cleanMetaOf_qualityScore (a b : Nat) (x : PdFrame) (y : CleanState) :
    (cleanMetaOf a b x y).qualityScore
      = pyRound4 (if 0 < a * max b 1
          then qualityFormula y.summary.total (a * max b 1) else 0) := rfl

lemma cleanMetaOf_summary (a b : Nat) (x : PdFrame) (y : CleanState) :
    (cleanMetaOf a b x y).summary = y.summary := rfl

/-- C5 (amended): for every table with at least one cell, the
PRE-ROUNDING quality score equals `1 - total_issues / total_cells`
floored at 0, and the score `clean` reports is that value rounded to four
decimal places (round half to even), hence still within `[0, 1]`; the
pre-rounding formula strictly decreases as the issue count grows towards
the cell count.  The reported value itself can differ from the exact
formula (see the counterexample) and, being rounded, is only weakly
decreasing in general. -/
theorem clean_quality_score (df : PdFrame)
    (hcells : 0 < nRows df * max (nCols df) 1) :
    (clean df).2.qualityScore
      = pyRound4 (qualityFormula (clean df).2.summary.total
          (nRows df * max (nCols df) 1))
    ∧ 0 ≤ qualityFormula (clean df).2.summary.total (nRows df * max (nCols df) 1)
    ∧ qualityFormula (clean df).2.summary.total (nRows df * max (nCols df) 1) ≤ 1
    ∧ 0 ≤ (clean df).2.qualityScore
    ∧ (clean df).2.qualityScore ≤ 1
    ∧ (∀ i1 i2 c : Nat, i1 < i2 → i2 ≤ c →
        qualityFormula i2 c < qualityFormula i1 c) := by
  have heq : (clean df).2.qualityScore
      = pyRound4 (if 0 < nRows df * max (nCols df) 1
          then qualityFormula (clean df).2.summary.total
                 (nRows df * max (nCols df) 1)
          else 0) := by
    rw [clean_snd, cleanMetaOf_qualityScore, cleanMetaOf_summary]
  rw [if_pos hcells] at heq
  have hb := pyRound4_bounds (qualityFormula (clean df).2.summary.total
      (nRows df * max (nCols df) 1)) (qualityFormula_nonneg _ _)
      (qualityFormula_le_one _ _)
  refine ⟨heq, qualityFormula_nonneg _ _, qualityFormula_le_one _ _, ?_, ?_,
    qualityFormula_strict_mono⟩
  · rw [heq]; exact hb.1
  · rw [heq]; exact hb.2

/-- C5 witness: the quality-score theorem applied to the concrete
duplicate-row table. -/
theorem clean_quality_score_witness :
    (clean dupFrame).2.qualityScore
      = pyRound4 (qualityFormula (clean dupFrame).2.summary.total
          (nRows dupFrame * max (nCols dupFrame) 1))
    ∧ 0 ≤ (clean dupFrame).2.qualityScore
    ∧ (clean dupFrame).2.qualityScore ≤ 1 :=
  ⟨(clean_quality_score dupFrame (by decide)).1,
   (clean_quality_score dupFrame (by decide)).2.2.2.1,
   (clean_quality_score dupFrame (by decide)).2.2.2.2.1⟩

lemma floor_twenty_thousand_thirds : ((20000 : ℚ) / 3).floor = 6666 := by
  rw [rat_floor_eq_int_floor, Int.floor_eq_iff]
  norm_num

lemma roundHalfEven_twenty_thousand_thirds :
    roundHalfEven ((20000 : ℚ) / 3) = 6667 := by
  simp only [roundHalfEven, floor_twenty_thousand_thirds]
  norm_num

/-- C5 counterexample: on the duplicate-row table the cleaner records one
issue over three cells, so the exact formula gives `2/3`, but the score
reported by `clean` is `0.6667` — the reported value does not equal the
formula because it is rounded to four decimal places. -/
theorem clean_quality_score_rounded_cex :
    (clean dupFrame).2.summary.total = 1
    ∧ (clean dupFrame).2.originalRowCount * max (clean dupFrame).2.originalColumnCount 1 = 3
    ∧ qualityFormula 1 3 = 2 / 3
    ∧ (clean dupFrame).2.qualityScore = 6667 / 10000
    ∧ (clean dupFrame).2.qualityScore
        ≠ qualityFormula (clean dupFrame).2.summary.total
            ((clean dupFrame).2.originalRowCount *
             max (clean dupFrame).2.originalColumnCount 1) := by
  have htot : (clean dupFrame).2.summary.total = 1 := by decide
  have hcc : (clean dupFrame).2.originalRowCount *
      max (clean dupFrame).2.originalColumnCount 1 = 3 := by decide
  have hform : qualityFormula 1 3 = 2 / 3 := by
    unfold qualityFormula
    rw [max_eq_right (by norm_num)]
    norm_num
  have hscore : (clean dupFrame).2.qualityScore = 6667 / 10000 := by
    have heq : (clean dupFrame).2.qualityScore
        = pyRound4 (if 0 < nRows dupFrame * max (nCols dupFrame) 1
            then qualityFormula (clean dupFrame).2.summary.total
                   (nRows dupFrame * max (nCols dupFrame) 1)
            else 0) := rfl
    rw [if_pos (by decide)] at heq
    rw [show nRows dupFrame * max (nCols dupFrame) 1 = 3 from by decide, htot,
      hform] at heq
    rw [heq]
    unfold pyRound4
    rw [show (2 : ℚ) / 3 * 10000 = 20000 / 3 from by norm_num,
      roundHalfEven_twenty_thousand_thirds]
    norm_num
  refine ⟨htot, hcc, hform, hscore, ?_⟩
  rw [hscore, htot, hcc, hform]
  norm_num

/-! ### Claim C6: the numeric-conversion threshold -/

/-- A column that is all numeric strings except one `N/A`: exactly 80% of
its (non-null) values parse as numbers. -/
def nearNumericColumn : PdColumn :=
  ⟨S "x", .obj,
   [.vStr (S "1"), .vStr (S "2"), .vStr (S "3"), .vStr (S "4"), .vStr (S "N/A")]⟩

/-- A column whose parse ratio strictly exceeds 80% (5 of 6 values). -/
def mostlyNumericColumn : PdColumn :=
  ⟨S "x", .obj,
   [.vStr (S "1"), .vStr (S "2"), .vStr (S "3"), .vStr (S "4"), .vStr (S "5"),
    .vStr (S "N/A")]⟩

/-- C6 (amended): an object column is converted to numeric exactly when
its coerced non-null count strictly exceeds 80% of ALL its values (nulls
count in the denominator, and exactly 80% does not convert); on
conversion the column keeps its row count (nothing is dropped), every
non-parsing cell becomes null, and the recorded conversion count is the
number of successfully coerced cells; below the threshold no numeric
conversion is recorded for the column.  `_standardize_data_types` applies
this to every column. -/
theorem standardize_numeric_conversion (c : PdColumn) (hobj : c.dtype = .obj) :
    ((0 < c.values.length ∧
        5 * (convertNumericVals c.values).countP (fun v => !(v == Value.vNull))
          > 4 * c.values.length) →
      (standardizeOneColumn c).1.values
          = floatifyIfF64 (numericDtypeFor (convertNumericVals c.values))
              (convertNumericVals c.values)
      ∧ (standardizeOneColumn c).1.values.length = c.values.length
      ∧ (standardizeOneColumn c).2.1
          = (convertNumericVals c.values).countP (fun v => !(v == Value.vNull))
      ∧ (∀ i v, c.values.get? i = some v → toNumericValue v = .vNull →
          (standardizeOneColumn c).1.values.get? i = some .vNull))
    ∧ (¬(0 < c.values.length ∧
        5 * (convertNumericVals c.values).countP (fun v => !(v == Value.vNull))
          > 4 * c.values.length) →
      (standardizeOneColumn c).2.1 = 0)
    ∧ (∀ (df : PdFrame) (st : CleanState),
        (standardizeDataTypes df st).1.cols
          = df.cols.map (fun col => (standardizeOneColumn col).1)) := by
  refine ⟨fun hthr => ?_, fun hthr => ?_, fun df st => ?_⟩
  · have hcol : standardizeOneColumn c
        = ({ name := c.name,
             dtype := numericDtypeFor (convertNumericVals c.values),
             values := floatifyIfF64 (numericDtypeFor (convertNumericVals c.values))
               (convertNumericVals c.values) },
           (convertNumericVals c.values).countP (fun v => !(v == Value.vNull)),
           0, 0) := by
      simp only [standardizeOneColumn, hobj, if_true]
      rw [if_pos hthr]
    rw [hcol]
    refine ⟨rfl, ?_, rfl, ?_⟩
    · simp only [floatifyIfF64]
      split
      · simp [convertNumericVals]
      · simp [convertNumericVals]
    · intro i v hget hnull
      simp only [floatifyIfF64]
      have hconv : (convertNumericVals c.values).get? i = some Value.vNull := by
        simp only [convertNumericVals]
        rw [List.get?_map, hget]
        simp [hnull]
      split
      · rw [List.get?_map, hconv]
        rfl
      · exact hconv
  · simp only [standardizeOneColumn, hobj, if_true]
    rw [if_neg hthr]
    by_cases hdt : 0 < c.values.length ∧
        2 * (convertDatetimeVals c.values).countP (fun v => !(v == Value.vNull))
          > c.values.length
    · rw [if_pos hdt]
    · rw [if_neg hdt]
  · simp [standardizeDataTypes, List.map_map, Function.comp]

/-- C6 witness: the conversion theorem applied to the concrete column
with a parse ratio of 5/6, whose recorded conversion count is its coerced
non-null count. -/
theorem standardize_numeric_conversion_witness :
    (standardizeOneColumn mostlyNumericColumn).2.1
      = (convertNumericVals mostlyNumericColumn.values).countP
          (fun v => !(v == Value.vNull)) :=
  ((standardize_numeric_conversion mostlyNumericColumn rfl).1 (by decide)).2.2.1

/-- C6 counterexample: in the `N/A` column exactly 4 of 5 non-null
values parse as numbers — at least 80% of the non-null values, so the
claim demands conversion — yet the column is returned unchanged with a
conversion count of 0, because the source requires the parse count to
STRICTLY exceed 80% of all values. -/
theorem standardize_numeric_conversion_cex :
    ((convertNumericVals nearNumericColumn.values).countP
        (fun v => !(v == Value.vNull)) = 4
      ∧ nearNumericColumn.values.countP (fun v => !(v == Value.vNull)) = 5
      ∧ nearNumericColumn.values.length = 5)
    ∧ (standardizeOneColumn nearNumericColumn).1 = nearNumericColumn
    ∧ (standardizeOneColumn nearNumericColumn).2.1 = 0
    ∧ (clean ⟨[nearNumericColumn]⟩).2.metrics.numericConversions = 0
    ∧ (clean ⟨[nearNumericColumn]⟩).1 = ⟨[nearNumericColumn]⟩ := by
  refine ⟨⟨by decide, by decide, by decide⟩, by decide, by decide, by decide, by decide⟩

/-! ### Claim C7: de-duplication across cleaning passes -/

lemma mem_dropDupGo {r : List Value} :
    ∀ (rs seen : List (List Value)), r ∈ dropDupGo seen rs → r ∈ rs ∧ r ∉ seen := by
  intro rs
  induction rs with
  | nil => intro seen h; simp [dropDupGo] at h
  | cons a t ih =>
    intro seen h
    simp only [dropDupGo] at h
    split at h
    · obtain ⟨h1, h2⟩ := ih seen h
      exact ⟨List.mem_cons_of_mem a h1, h2⟩
    · rename_i hnotin
      rcases List.mem_cons.mp h with h | h
      · exact ⟨h ▸ List.mem_cons_self a t, h ▸ hnotin⟩
      · obtain ⟨h1, h2⟩ := ih (a :: seen) h
        exact ⟨List.mem_cons_of_mem a h1,
          fun hmem => h2 (List.mem_cons_of_mem a hmem)⟩

lemma nodup_dropDupGo :
    ∀ (rs seen : List (List Value)), (dropDupGo seen rs).Nodup := by
  intro rs
  induction rs with
  | nil => intro seen; simp [dropDupGo]
  | cons a t ih =>
    intro seen
    simp only [dropDupGo]
    split
    · exact ih seen
    · rw [List.nodup_cons]
      refine ⟨fun hmem => ?_, ih (a :: seen)⟩
      exact (mem_dropDupGo t (a :: seen) hmem).2 (List.mem_cons_self a seen)

lemma dropDupGo_eq_self :
    ∀ (l seen : List (List Value)), l.Nodup → (∀ r ∈ l, r ∉ seen) →
      dropDupGo seen l = l := by
  intro l
  induction l with
  | nil => intro seen _ _; rfl
  | cons a t ih =>
    intro seen hnd hdisj
    simp only [dropDupGo]
    rw [if_neg (hdisj a (List.mem_cons_self a t))]
    congr 1
    apply ih (a :: seen) (List.nodup_cons.mp hnd).2
    intro r hr
    intro hmem
    rcases List.mem_cons.mp hmem with h | h
    · exact (List.nodup_cons.mp hnd).1 (h ▸ hr)
    · exact hdisj r (List.mem_cons_of_mem a hr) h

lemma dropDuplicates_idem (rows : List (List Value)) :
    dropDuplicates (dropDuplicates rows) = dropDuplicates rows :=
  dropDupGo_eq_self (dropDupGo [] rows) [] (nodup_dropDupGo rows [])
    (fun _ _ h => (List.not_mem_nil _) h)

lemma row_length_mem_rowsOf (df : PdFrame) :
    ∀ r ∈ rowsOf df, r.length = nCols df := by
  intro r hr
  obtain ⟨i, _, hi⟩ := List.mem_map.mp hr
  rw [← hi, List.length_map]
  rfl

lemma getD_eq_get?_getD {α : Type} (l : List α) (n : Nat) (d : α) :
    l.getD n d = (l.get? n).getD d := by
  induction l generalizing n with
  | nil => cases n <;> rfl
  | cons a t ih =>
    cases n with
    | zero => rfl
    | succ m => simpa using ih m

lemma enum_map_getD (l : List PdColumn) (row : List Value)
    (h : row.length = l.length) :
    l.enum.map (fun p => row.getD p.1 Value.vNull) = row := by
  apply List.ext_get?
  intro n
  cases hn : l.get? n with
  | none =>
    have hlen : l.length ≤ n := List.get?_eq_none.mp hn
    rw [List.get?_map, List.get?_enum, hn]
    rw [show (Option.map (fun a => (n, a)) (none : Option PdColumn)) = none from rfl]
    rw [show (Option.map (fun p => row.getD p.1 Value.vNull) (none : Option (Nat × PdColumn))) = none from rfl]
    symm
    rw [List.get?_eq_none]
    omega
  | some a =>
    have hlt : n < l.length := by
      by_contra hc
      push_neg at hc
      rw [List.get?_eq_none.mpr hc] at hn
      cases hn
    have hrow : n < row.length := by omega
    have hv : row.get? n = some (row.get ⟨n, hrow⟩) := List.get?_eq_get hrow
    rw [List.get?_map, List.get?_enum, hn]
    rw [show (Option.map (fun a => (n, a)) (some a)) = some (n, a) from rfl]
    rw [show (Option.map (fun p => row.getD p.1 Value.vNull) (some (n, a)))
        = some (row.getD n Value.vNull) from rfl]
    rw [getD_eq_get?_getD, hv]
    rfl

lemma removeDuplicates_fst (df : PdFrame) (st : CleanState) :
    (removeDuplicates df st).1 = frameFromRows df (dropDuplicates (rowsOf df)) := by
  simp only [removeDuplicates]
  split <;> rfl

lemma nRows_frameFromRows (df : PdFrame) (rows : List (List Value))
    (c0 : PdColumn) (rest : List PdColumn) (hcols : df.cols = c0 :: rest) :
    nRows (frameFromRows df rows) = rows.length := by
  simp only [frameFromRows, nRows, hcols]
  rw [show (c0 :: rest).enum = (0, c0) :: rest.enumFrom 1 from rfl]
  simp

lemma rowsOf_frameFromRows (df : PdFrame) (rows : List (List Value))
    (hlen : ∀ r ∈ rows, r.length = nCols df)
    (hne : df.cols = [] → rows = []) :
    rowsOf (frameFromRows df rows) = rows := by
  cases hcols : df.cols with
  | nil =>
    rw [hne hcols]
    simp [rowsOf, frameFromRows, nRows, hcols]
  | cons c0 rest =>
    apply List.ext_get?
    intro n
    simp only [rowsOf]
    rw [nRows_frameFromRows df rows c0 rest hcols]
    rw [List.get?_map]
    by_cases hn : n < rows.length
    · have hr : (List.range rows.length).get? n = some n := by
        rw [List.get?_range hn]
      rw [hr]
      have hrow : n < rows.length := hn
      have hv : rows.get? n = some (rows.get ⟨n, hrow⟩) := List.get?_eq_get hrow
      rw [hv]
      rw [show Option.map (fun i => (frameFromRows df rows).cols.map
          (fun c => c.values.getD i Value.vNull)) (some n)
        = some ((frameFromRows df rows).cols.map
            (fun c => c.values.getD n Value.vNull)) from rfl]
      congr 1
      have hmem : rows.get ⟨n, hrow⟩ ∈ rows := List.get_mem rows n hrow
      have hlen2 : (rows.get ⟨n, hrow⟩).length = df.cols.length := hlen _ hmem
      simp only [frameFromRows, List.map_map]
      have hstep : (fun (c : PdColumn) => c.values.getD n Value.vNull) ∘
          (fun p : Nat × PdColumn =>
            { p.2 with values := rows.map (fun (r : List Value) => r.getD p.1 Value.vNull) }) =
          (fun p : Nat × PdColumn =>
            (rows.map (fun (r : List Value) => r.getD p.1 Value.vNull)).getD n Value.vNull) := rfl
      rw [hstep]
      have hstep2 : ∀ p : Nat × PdColumn,
          (rows.map (fun (r : List Value) => r.getD p.1 Value.vNull)).getD n Value.vNull
            = (rows.get ⟨n, hrow⟩).getD p.1 Value.vNull := by
        intro p
        rw [getD_eq_get?_getD, List.get?_map, hv]
        rfl
      rw [List.map_congr_left (fun p _ => hstep2 p)]
      exact enum_map_getD df.cols (rows.get ⟨n, hrow⟩) hlen2
    · have hr : (List.range rows.length).get? n = none := by
        rw [List.get?_eq_none]
        simpa using hn
      rw [hr]
      symm
      rw [show Option.map (fun i => (frameFromRows df rows).cols.map
          (fun c => c.values.getD i Value.vNull)) none = none from rfl]
      rw [List.get?_eq_none]
      omega

lemma rowsOf_removeDuplicates (df : PdFrame) (st : CleanState) :
    rowsOf ((removeDuplicates df st).1) = dropDuplicates (rowsOf df) := by
  rw [removeDuplicates_fst]
  apply rowsOf_frameFromRows
  · intro r hr
    exact row_length_mem_rowsOf df r (mem_dropDupGo (rowsOf df) [] hr).1
  · intro hcols
    have hrows : rowsOf df = [] := by
      simp [rowsOf, nRows, hcols]
    rw [hrows]
    rfl

/-- A table whose two string rows differ only by trailing whitespace:
de-duplication (step 5) keeps both, then text trimming (step 6) makes
them equal. -/
def trailingSpaceFrame : PdFrame :=
  ⟨[⟨S "name", .obj, [.vStr (S "a"), .vStr (S "a ")]⟩]⟩

/-- C7 (amended): the de-duplication STEP is idempotent — keep-first
de-duplication is a fixed point on its own output, and running
`_remove_duplicates` on the frame it produced removes nothing and leaves
the bookkeeping untouched.  A full second `clean` pass, however, is NOT
guaranteed to record zero duplicate removals, because step 6 trims text
after step 5 de-duplicates and can thereby create new duplicate rows
(see the counterexample). -/
theorem remove_duplicates_step_idempotent :
    (∀ rows : List (List Value),
      dropDuplicates (dropDuplicates rows) = dropDuplicates rows)
    ∧ (∀ (df : PdFrame) (st : CleanState),
        rowsOf ((removeDuplicates df st).1) = dropDuplicates (rowsOf df))
    ∧ (∀ (df : PdFrame) (st1 st2 : CleanState),
        (removeDuplicates ((removeDuplicates df st1).1) st2).2 = st2) := by
  refine ⟨dropDuplicates_idem, rowsOf_removeDuplicates, fun df st1 st2 => ?_⟩
  have h2 := rowsOf_removeDuplicates df st1
  obtain ⟨X, hX⟩ : ∃ X, (removeDuplicates df st1).1 = X := ⟨_, rfl⟩
  rw [hX] at h2 ⊢
  simp only [removeDuplicates]
  rw [h2, dropDuplicates_idem]
  rw [if_neg (by omega)]

/-- C7 counterexample: cleaning `trailingSpaceFrame` removes no
duplicates (the rows differ before trimming) but trims one cell; cleaning
the cleaned output removes one duplicate row, so the second pass records
`duplicates_removed = 1`, not 0. -/
theorem clean_second_pass_dedup_cex :
    (clean trailingSpaceFrame).2.metrics.duplicatesRemoved = 0
    ∧ (clean trailingSpaceFrame).2.metrics.textStandardized = 1
    ∧ (clean trailingSpaceFrame).1
        = ⟨[⟨S "name", .obj, [.vStr (S "a"), .vStr (S "a")]⟩]⟩
    ∧ (clean (clean trailingSpaceFrame).1).2.metrics.duplicatesRemoved = 1 := by
  refine ⟨by decide, by decide, by decide, by decide⟩

/-! ### Claim C8: the inferred SQL types (`excel_processor.py` lines
276-333) -/

/-- `pandas.api.types.is_bool_dtype`. -/
def isBoolDtype (d : DType) : Bool := d = .boolT

/-- `pandas.api.types.is_datetime64_any_dtype`. -/
def isDatetimeDtype (d : DType) : Bool := d = .dt64

/-- `pandas.api.types.is_numeric_dtype` (booleans count as numeric in
pandas, though the source tests them first). -/
def isNumericDtype (d : DType) : Bool := d = .i64 || d = .f64 || d = .boolT

/-- `pandas.api.types.is_integer_dtype`. -/
def isIntegerDtype (d : DType) : Bool := d = .i64

/-- Python `str(int)`. -/
def intStr (n : Int) : PyStr :=
  if n < 0 then '-' :: natStr (-n).toNat else natStr n.toNat

/-- `astype(str)` on one cell, for the string-length profile of TEXT
columns.  Renderings of floats and datetimes are placeholders — no claim
depends on the lengths of such cells. -/
def strOfValue : Value → PyStr
  | .vNull => S "nan"
  | .vStr s => s
  | .vInt n => intStr n
  | .vFloat q => intStr q.num ++ '/' :: natStr q.den
  | .vBool b => if b then S "True" else S "False"
  | .vDate t => intStr t

/-- `_map_series_to_sql_type`: BOOLEAN for bool dtypes, TIMESTAMP for
datetime dtypes, INTEGER/FLOAT for numeric dtypes, else TEXT with the
maximum rendered length of the non-null values. -/
def mapSeriesToSqlType (c : PdColumn) : PyStr × Option Nat :=
  if isBoolDtype c.dtype then (S "BOOLEAN", none)
  else if isDatetimeDtype c.dtype then (S "TIMESTAMP", none)
  else if isNumericDtype c.dtype then
    if isIntegerDtype c.dtype then (S "INTEGER", none) else (S "FLOAT", none)
  else
    let lens := (c.values.filter (fun v => !(v == Value.vNull))).map
      (fun v => (strOfValue v).length)
    (S "TEXT", match lens with | [] => none | _ => some (lens.foldl max 0))

/-- One column entry of the schema dict built by `_infer_schema`. -/
structure InferredColumn where
  name : PyStr
  originalName : PyStr
  displayName : PyStr
  type : PyStr
  nullable : Bool
  maxLength : Option Nat
deriving DecidableEq, Repr

/-- The schema dict built by `_infer_schema`. -/
structure InferredSchema where
  tableName : PyStr
  baseTableName : PyStr
  columns : List InferredColumn
deriving DecidableEq, Repr

/-- `df[original_name]` (schema inference assumes the mapped columns
exist in the frame). -/
def findColumn (df : PdFrame) (name : PyStr) : PdColumn :=
  match df.cols.find? (fun c => decide (c.name = name)) with
  | some c => c
  | none => default

/-- `_infer_schema`: one column entry per mapping pair, with the SQL type
from `_map_series_to_sql_type`; the table name is the sanitized sheet
name (`"sheet"` when the sheet name is empty), or a uuid-derived fallback
— abstracted as the parameter `uuidFallback` — when even that sanitizes
to the empty string. -/
def inferSchema (df : PdFrame) (sheetName : PyStr) (uuidFallback : PyStr)
    (mappings : List (PyStr × PyStr)) : InferredSchema :=
  let columns := mappings.map (fun m =>
    let series := findColumn df m.1
    let ts := mapSeriesToSqlType series
    { name := m.2, originalName := m.1, displayName := m.1, type := ts.1,
      nullable := series.values.any (fun v => v == Value.vNull),
      maxLength := ts.2 : InferredColumn })
  let base := sanitizeTableName (if sheetName = [] then S "sheet" else sheetName)
  let base := if base = [] then uuidFallback else base
  { tableName := base, baseTableName := base, columns := columns }

/-- A concrete datetime series. -/
def datetimeSeries : PdColumn := ⟨S "d", .dt64, [.vDate 20240101]⟩

/-- C8 (amended): every sql_type recorded in an inferred schema is one of
exactly INTEGER, FLOAT, BOOLEAN, TIMESTAMP, TEXT — datetime columns are
typed TIMESTAMP, not DATETIME as the specification states. -/
theorem infer_schema_sql_types :
    (∀ c : PdColumn, (mapSeriesToSqlType c).1 ∈
        [S "BOOLEAN", S "TIMESTAMP", S "INTEGER", S "FLOAT", S "TEXT"])
    ∧ (∀ (df : PdFrame) (sn fb : PyStr) (mp : List (PyStr × PyStr))
        (col : InferredColumn), col ∈ (inferSchema df sn fb mp).columns →
        col.type ∈ [S "BOOLEAN", S "TIMESTAMP", S "INTEGER", S "FLOAT", S "TEXT"]) := by
  have hbase : ∀ c : PdColumn, (mapSeriesToSqlType c).1 ∈
      [S "BOOLEAN", S "TIMESTAMP", S "INTEGER", S "FLOAT", S "TEXT"] := by
    intro c
    simp only [mapSeriesToSqlType]
    split
    · simp
    · split
      · simp
      · split
        · split
          · simp
          · simp
        · simp
  refine ⟨hbase, fun df sn fb mp col hcol => ?_⟩
  simp only [inferSchema, List.mem_map] at hcol
  obtain ⟨m, _, hm⟩ := hcol
  rw [← hm]
  exact hbase (findColumn df m.1)

/-- C8 witness: the sql-type theorem applied to a concrete one-column
schema built from a datetime series. -/
theorem infer_schema_sql_types_witness :
    ∀ col ∈ (inferSchema ⟨[datetimeSeries]⟩ (S "Sheet1") (S "sheet_x")
        [(S "d", S "d")]).columns,
      col.type ∈ [S "BOOLEAN", S "TIMESTAMP", S "INTEGER", S "FLOAT", S "TEXT"] :=
  fun col hcol =>
    infer_schema_sql_types.2 ⟨[datetimeSeries]⟩ (S "Sheet1") (S "sheet_x")
      [(S "d", S "d")] col hcol

/-- C8 counterexample: a datetime series is mapped to `TIMESTAMP`, which
is not in the claimed set (INTEGER, FLOAT, BOOLEAN, DATETIME, TEXT), and
the inferred schema records that type. -/
theorem infer_schema_sql_types_cex :
    (mapSeriesToSqlType datetimeSeries).1 = S "TIMESTAMP"
    ∧ (S "TIMESTAMP" ∈
        [S "INTEGER", S "FLOAT", S "BOOLEAN", S "DATETIME", S "TEXT"]) = False
    ∧ ((inferSchema ⟨[datetimeSeries]⟩ (S "Sheet1") (S "sheet_x")
        [(S "d", S "d")]).columns.map (fun col => col.type)) = [S "TIMESTAMP"] := by
  refine ⟨by decide, by simp; refine ⟨by decide, by decide, by decide, by decide, by decide⟩, by decide⟩
